import Mathlib

/-!
Verification development for the eonasm assembler (src/eonasm.c).

The C program is shallowly embedded: lines of input are lists of byte
values (`List Nat`), 32-bit unsigned arithmetic is `Nat` modulo `2^32`,
C `int` values are `Int`, and conversions at store/argument boundaries
are made explicit.  Undefined behaviour (division or modulo by zero
inside the expression evaluator) is modelled by `Option`: a `none`
result of a run means the C program has no defined result there.
-/

set_option maxRecDepth 10000

namespace Eonasm

/-! ### ctype support (eonasm.c lines 31-36) -/

def M32 : Nat := 4294967296

def M16 : Nat := 65536

def isdigit (c : Nat) : Bool := decide (48 ≤ c ∧ c < 58)

def isalpha (c : Nat) : Bool := decide (97 ≤ (c ||| 32) ∧ (c ||| 32) < 123)

def isalnum (c : Nat) : Bool := isalpha c || isdigit c

def toupper (c : Nat) : Nat := if 97 ≤ c ∧ c < 123 then c - 32 else c

/-- Byte values of a Lean string literal; used to write test programs and
directive names.  Input lines never contain NUL; the terminating NUL of the
C line buffer is represented by the end of the list. -/
def bytesOf (s : String) : List Nat := s.data.map Char.toNat

/-! ### label table (eonasm.c lines 205-268)

`tlabel` is a 256-entry array used as two stacks: globals grow up from 0,
locals grow down from 256.  We model the array as a function `Nat → LabelRec`
updated pointwise. -/

def LABEL_USED : Nat := 1

def LABEL_EQU : Nat := 2

def MAX_LABELS : Nat := 256

def MAX_CHAR_LABEL : Nat := 22

structure LabelRec where
  value : Nat
  lbegin : Nat
  lend : Nat
  flags : Nat
  len : Nat
  name : List Nat
deriving DecidableEq

def emptyLabel : LabelRec := ⟨0, 0, 0, 0, 0, []⟩

structure SymTab where
  slots : Nat → LabelRec
  nlabel : Nat
  lstack : Nat

def initTab : SymTab := ⟨fun _ => emptyLabel, 0, MAX_LABELS⟩

def updSlot (f : Nat → LabelRec) (i : Nat) (l : LabelRec) : Nat → LabelRec :=
  fun j => if j = i then l else f j

/-- Linear scan of `k` slots starting at index `i` (the loop of
`find_label`); a slot matches when the significant length and the first
`len` name bytes agree (the `memcmp`). -/
def scanTab (slots : Nat → LabelRec) (id : List Nat) (len : Nat) : Nat → Nat → Option Nat
  | _, 0 => none
  | i, k + 1 =>
    if (slots i).len = len ∧ (slots i).name = id.take len then some i
    else scanTab slots id len (i + 1) k

/-- `find_label` (lines 222-239): search the globals `[0, nlabel)` or, when a
master label is given, its local region `[lbegin, lend)`. -/
def find_label (t : SymTab) (master : Option Nat) (id : List Nat) : Option Nat :=
  let len := min id.length MAX_CHAR_LABEL
  match master with
  | some m => scanTab t.slots id len ((t.slots m).lbegin) ((t.slots m).lend - (t.slots m).lbegin)
  | none => scanTab t.slots id len 0 t.nlabel

/-- `add_label` (lines 241-268).  `none` models the fatal table-overflow
exit.  A local label is pushed on the downward stack and the master label
record lbegin is pulled down to it; a global is appended upward with
`lbegin = lend = lstack`.  The stored name is the truncated uppercase id. -/
def add_label (t : SymTab) (master : Option Nat) (id : List Nat) (at0 : Nat) : Option (SymTab × Nat) :=
  if t.lstack ≤ t.nlabel then none
  else
    let len := min id.length MAX_CHAR_LABEL
    match master with
    | some m =>
      let idx := t.lstack - 1
      let l : LabelRec := ⟨at0 % M32, 0, 0, 0, len, id.take len⟩
      let slots1 := updSlot t.slots idx l
      let slots2 := updSlot slots1 m { slots1 m with lbegin := idx }
      some (⟨slots2, t.nlabel, idx⟩, idx)
    | none =>
      let idx := t.nlabel
      let l : LabelRec := ⟨at0 % M32, t.lstack, t.lstack, 0, len, id.take len⟩
      some (⟨updSlot t.slots idx l, idx + 1, t.lstack⟩, idx)

/-! ### expression evaluator (eonasm.c lines 273-386) -/

/-- `while (*p && *p <= ' ') ++p;` -/
def skipSpaces : List Nat → List Nat
  | [] => []
  | c :: r => if c ≠ 0 ∧ c ≤ 32 then skipSpaces r else c :: r

/-- Decimal literal loop: `v = v * 10 + *p++ - '0'` on `uint32_t`. -/
def parseDecLoop : Nat → List Nat → Nat × List Nat
  | v, [] => (v, [])
  | v, c :: r => if isdigit c then parseDecLoop ((v * 10 + (c - 48)) % M32) r else (v, c :: r)

def hexDigitVal (c : Nat) : Option Nat :=
  if 48 ≤ c ∧ c < 58 then some (c - 48)
  else if 97 ≤ c ∧ c < 103 then some (c - 87)
  else if 65 ≤ c ∧ c < 71 then some (c - 55)
  else none

/-- Hex literal loop: `v = (v << 4) | d` on `uint32_t`. -/
def parseHexLoop : Nat → List Nat → Nat × List Nat
  | v, [] => (v, [])
  | v, c :: r =>
    match hexDigitVal c with
    | some d => parseHexLoop ((v * 16) % M32 ||| d) r
    | none => (v, c :: r)

def headIsDigit : List Nat → Bool
  | [] => false
  | d :: _ => isdigit d

/-- Identifier collection, uppercased: `for (; *p == '_' || isalnum (*p); p++)`. -/
def collectIdent : List Nat → List Nat × List Nat
  | [] => ([], [])
  | c :: r =>
    if c = 95 ∨ isalnum c then
      let nq := collectIdent r
      (toupper c :: nq.1, nq.2)
    else ([], c :: r)

/-- One binary operator of the reduction switch (lines 372-381).  All
arithmetic is on `uint32_t`; division or modulo by zero is undefined
behaviour in C and is modelled as `none`. -/
def appOp (op vl vr : Nat) : Option Nat :=
  if op = 43 then some ((vl + vr) % M32)
  else if op = 45 then some ((vl + M32 - vr) % M32)
  else if op = 42 then some ((vl * vr) % M32)
  else if op = 47 then (if vr = 0 then none else some (vl / vr))
  else if op = 37 then (if vr = 0 then none else some (vl % vr))
  else if op = 38 then some (vl &&& vr)
  else if op = 124 then some (vl ||| vr)
  else some 0

/-- The final reduction loop (lines 367-383): while operators remain, pop
the top operator, the top value as right operand and the next value as
left operand, and push the result.  Stacks are lists with the top at the
head. -/
def reduceStack : List Nat → List Nat → Option (List Nat)
  | sval, [] => some sval
  | vr :: vl :: sval, op :: sop =>
    match appOp op vl vr with
    | some vv => reduceStack (vv :: sval) sop
    | none => none
  | _, _ :: _ => none

structure GoOut where
  p : Option (List Nat)
  sval : List Nat
  sop : List Nat
  tbl : SymTab
  errs : List (Nat × String)

structure ExOut where
  p : Option (List Nat)
  v : Nat
  tbl : SymTab
  errs : List (Nat × String)

/-- End of the parse loop (lines 362-385): an unbalanced stack is the
"expr syntax" error with a NULL result pointer; otherwise reduce.  The
returned value is the bottom stack slot (`sval[0]`, 0 when nothing was
pushed, matching the unread slot of the C array). -/
def exprFin (ln : Nat) (o : GoOut) : Option ExOut :=
  if o.sop.length + 1 ≠ o.sval.length then
    some ⟨none, o.sval.getLastD 0, o.tbl, o.errs ++ [(ln, "expr syntax")]⟩
  else
    match reduceStack o.sval o.sop with
    | none => none
    | some s => some ⟨o.p, s.headD 0, o.tbl, o.errs⟩

/-- One parsed element of the expression loop body. -/
inductive EItem
  | brk (p : Option (List Nat))
  | val (v : Nat) (rest : List Nat)
  | opc (c : Nat) (rest : List Nat)

/-- The `for (;;)` loop of `expr` (lines 281-359): skip blanks, parse one
item, and push it through the value/operator stack discipline.  The fuel
decreases once per iteration and on the parenthesis recursion; the wrapper
`exprTop` supplies more than enough. -/
def exprGo : Nat → Nat → Option Nat → Bool → Nat → SymTab → List Nat → List Nat → List Nat →
    List (Nat × String) → Option GoOut
  | 0, _, _, _, _, tbl, p, sval, sop, errs => some ⟨some p, sval, sop, tbl, errs⟩
  | f + 1, ln, ml, au, pc, tbl, p, sval, sop, errs =>
    match skipSpaces p with
    | [] => some ⟨some [], sval, sop, tbl, errs⟩
    | c :: r =>
      let ir : Option (SymTab × List (Nat × String) × EItem) :=
        if c = 40 then
          match exprGo f ln ml au pc tbl r [] [] errs with
          | none => none
          | some o =>
            match exprFin ln o with
            | none => none
            | some e =>
              match e.p with
              | none => some (e.tbl, e.errs, EItem.brk none)
              | some (41 :: r2) => some (e.tbl, e.errs, EItem.val e.v r2)
              | some (_ :: r2) => some (e.tbl, e.errs, EItem.brk (some r2))
              | some [] => some (e.tbl, e.errs, EItem.brk (some []))
        else if c = 36 then
          match r with
          | 36 :: r2 => some (tbl, errs, EItem.val pc r2)
          | _ =>
            let vr := parseHexLoop 0 r
            some (tbl, errs, EItem.val vr.1 vr.2)
        else if isdigit c ∨ (c = 45 ∧ headIsDigit r) then
          if c = 45 then
            let vr := parseDecLoop 0 r
            some (tbl, errs, EItem.val ((M32 - vr.1) % M32) vr.2)
          else
            let vr := parseDecLoop 0 (c :: r)
            some (tbl, errs, EItem.val vr.1 vr.2)
        else if c = 39 then
          match r with
          | ch :: 39 :: r2 => some (tbl, errs, EItem.val ch r2)
          | _ => some (tbl, errs, EItem.brk (some (c :: r)))
        else if c = 43 ∨ c = 45 ∨ c = 38 ∨ c = 124 ∨ c = 42 ∨ c = 37 ∨ c = 47 then
          some (tbl, errs, EItem.opc c r)
        else if c = 58 ∨ isalpha c ∨ c = 46 then
          let q := if c = 58 then r else c :: r
          let lq : Bool × List Nat :=
            match q with
            | 46 :: t => (true, t)
            | _ => (false, q)
          let errs1 := if lq.1 ∧ ml = none then errs ++ [(ln, "local label in expr without main label")] else errs
          let nq := collectIdent lq.2
          match find_label tbl (if lq.1 then ml else none) nq.1 with
          | none =>
            let errs2 := if au then errs1 else errs1 ++ [(ln, "undefined label in expr")]
            some (tbl, errs2, EItem.val 0 nq.2)
          | some i =>
            let tbl2 : SymTab :=
              ⟨updSlot tbl.slots i { tbl.slots i with flags := (tbl.slots i).flags ||| LABEL_USED }, tbl.nlabel, tbl.lstack⟩
            some (tbl2, errs1, EItem.val ((tbl.slots i).value) nq.2)
        else
          some (tbl, errs, EItem.brk (some (c :: r)))
      match ir with
      | none => none
      | some (tbl2, errs2, EItem.brk po) => some ⟨po, sval, sop, tbl2, errs2⟩
      | some (tbl2, errs2, EItem.val v rest) =>
        if sval.length = sop.length ∧ sval.length < 8 then
          exprGo f ln ml au pc tbl2 rest (v :: sval) sop errs2
        else some ⟨some rest, sval, sop, tbl2, errs2⟩
      | some (tbl2, errs2, EItem.opc oc rest) =>
        if sop.length + 1 = sval.length ∧ sop.length < 8 then
          exprGo f ln ml au pc tbl2 rest sval (oc :: sop) errs2
        else some ⟨some rest, sval, sop, tbl2, errs2⟩

def exprF (f : Nat) (ln : Nat) (ml : Option Nat) (au : Bool) (pc : Nat) (tbl : SymTab)
    (p : List Nat) (errs : List (Nat × String)) : Option ExOut :=
  match exprGo f ln ml au pc tbl p [] [] errs with
  | none => none
  | some o => exprFin ln o

/-- `expr` with enough fuel for its input: every loop iteration consumes at
least one input byte, and every parenthesis recursion consumes one more. -/
def exprTop (ln : Nat) (ml : Option Nat) (au : Bool) (pc : Nat) (tbl : SymTab)
    (p : List Nat) (errs : List (Nat × String)) : Option ExOut :=
  exprF (2 * p.length + 2) ln ml au pc tbl p errs

/-! ### register and opcode dictionaries (eonasm.c lines 391-526)

The C looks names up by binary search over these sorted tables; both
tables are sorted and duplicate-free, so the first-match linear lookup
used here returns the same entry. -/

def vreg : List (List Nat × Int) :=
  [(bytesOf "R0", 0), (bytesOf "R1", 1), (bytesOf "R10", 10), (bytesOf "R11", 11),
   (bytesOf "R12", 12), (bytesOf "R13", 13), (bytesOf "R14", 14), (bytesOf "R2", 2),
   (bytesOf "R3", 3), (bytesOf "R4", 4), (bytesOf "R5", 5), (bytesOf "R6", 6),
   (bytesOf "R7", 7), (bytesOf "R8", 8), (bytesOf "R9", 9), (bytesOf "SP", 15)]

/-- `reg_find`: the register number, or -1 when unknown. -/
def reg_find (s : List Nat) : Int :=
  match vreg.find? (fun e => decide (e.1 = s)) with
  | some e => e.2
  | none => -1

inductive Op
  | ADD | AND
  | BEQ | BLE | BLEI | BLT | BLTI
  | BNE | BNZ | BRA | BSWAP | BZ
  | CSETN | CSETNN | CSETNP | CSETNZ | CSETP | CSETZ
  | ENTER | ERET | GET | ILL | IN | IRET | ISTAT | JAL | JMP
  | LD1 | LD1I | LD2 | LD2I | LD4 | LD4I | LD8
  | LEA | LI | MV | NOP | OR | OUT | RET | SET
  | SEXT1 | SEXT2 | SEXT4
  | SHL | SHR | SHRI | SIGNAL | SRET
  | ST1 | ST2 | ST4 | ST8
  | SUB | SYS | WAIT | XOR
  | ZEXT1 | ZEXT2 | ZEXT4
deriving DecidableEq

def vop : List (List Nat × Op) :=
  [(bytesOf "ADD", .ADD), (bytesOf "AND", .AND), (bytesOf "BEQ", .BEQ), (bytesOf "BLE", .BLE),
   (bytesOf "BLEI", .BLEI), (bytesOf "BLT", .BLT), (bytesOf "BLTI", .BLTI), (bytesOf "BNE", .BNE),
   (bytesOf "BNZ", .BNZ), (bytesOf "BRA", .BRA), (bytesOf "BSWAP", .BSWAP), (bytesOf "BZ", .BZ),
   (bytesOf "CSETN", .CSETN), (bytesOf "CSETNN", .CSETNN), (bytesOf "CSETNP", .CSETNP),
   (bytesOf "CSETNZ", .CSETNZ), (bytesOf "CSETP", .CSETP), (bytesOf "CSETZ", .CSETZ),
   (bytesOf "ENTER", .ENTER), (bytesOf "ERET", .ERET), (bytesOf "GET", .GET),
   (bytesOf "ILLEGAL", .ILL), (bytesOf "IN", .IN), (bytesOf "IRET", .IRET),
   (bytesOf "ISTAT", .ISTAT), (bytesOf "JAL", .JAL), (bytesOf "JMP", .JMP),
   (bytesOf "LD1", .LD1), (bytesOf "LD1I", .LD1I), (bytesOf "LD2", .LD2), (bytesOf "LD2I", .LD2I),
   (bytesOf "LD4", .LD4), (bytesOf "LD4I", .LD4I), (bytesOf "LD8", .LD8),
   (bytesOf "LEA", .LEA), (bytesOf "LI", .LI), (bytesOf "MV", .MV), (bytesOf "NOP", .NOP),
   (bytesOf "OR", .OR), (bytesOf "OUT", .OUT), (bytesOf "RET", .RET), (bytesOf "SET", .SET),
   (bytesOf "SEXT1", .SEXT1), (bytesOf "SEXT2", .SEXT2), (bytesOf "SEXT4", .SEXT4),
   (bytesOf "SHL", .SHL), (bytesOf "SHR", .SHR), (bytesOf "SHRI", .SHRI),
   (bytesOf "SIGNAL", .SIGNAL), (bytesOf "SRET", .SRET),
   (bytesOf "ST1", .ST1), (bytesOf "ST2", .ST2), (bytesOf "ST4", .ST4), (bytesOf "ST8", .ST8),
   (bytesOf "SUB", .SUB), (bytesOf "SYSCALL", .SYS), (bytesOf "WAIT", .WAIT), (bytesOf "XOR", .XOR),
   (bytesOf "ZEXT1", .ZEXT1), (bytesOf "ZEXT2", .ZEXT2), (bytesOf "ZEXT4", .ZEXT4)]

def op_find (s : List Nat) : Option Op :=
  (vop.find? (fun e => decide (e.1 = s))).map (fun e => e.2)

/-! ### template match engine (eonasm.c lines 531-663) -/

/-- Argument kinds: the C `enum {_, R, N, M}`. -/
inductive AKind
  | abs | reg | num | mem
deriving DecidableEq

structure Arg where
  k : AKind
  rno : Int
  val : Int
deriving DecidableEq

def arg0 : Arg := ⟨AKind.abs, 0, 0⟩

/-- The three-slot argument array `struct arg_t va[3]`. -/
structure VArr where
  a0 : Arg
  a1 : Arg
  a2 : Arg
deriving DecidableEq

def getArg (va : VArr) : Nat → Arg
  | 0 => va.a0
  | 1 => va.a1
  | _ => va.a2

def setArg (va : VArr) (n : Nat) (a : Arg) : VArr :=
  match n with
  | 0 => { va with a0 := a }
  | 1 => { va with a1 := a }
  | _ => { va with a2 := a }

structure TEntry where
  op : Op
  na : Nat
  args : List AKind
  kind : Char
  word : Nat
deriving DecidableEq

def tmatch0 : List TEntry :=
  [⟨.ADD, 3, [.reg, .reg, .reg], 'R', 0x4000⟩,
   ⟨.ADD, 3, [.reg, .reg, .num], 'A', 0x3004⟩,
   ⟨.ADD, 2, [.reg, .num, .abs], 'a', 0x3004⟩,
   ⟨.ADD, 2, [.reg, .reg, .abs], 'r', 0x4000⟩,
   ⟨.AND, 3, [.reg, .reg, .reg], 'R', 0x8000⟩,
   ⟨.AND, 3, [.reg, .reg, .num], 'A', 0x3008⟩,
   ⟨.AND, 2, [.reg, .num, .abs], 'a', 0x3008⟩,
   ⟨.AND, 2, [.reg, .reg, .abs], 'r', 0x8000⟩,
   ⟨.BEQ, 3, [.reg, .reg, .num], 'b', 0x2000⟩,
   ⟨.BLE, 3, [.reg, .reg, .num], 'b', 0x2004⟩,
   ⟨.BLEI, 3, [.reg, .reg, .num], 'b', 0x2005⟩,
   ⟨.BLT, 3, [.reg, .reg, .num], 'b', 0x2002⟩,
   ⟨.BLTI, 3, [.reg, .reg, .num], 'b', 0x2003⟩,
   ⟨.BNE, 3, [.reg, .reg, .num], 'b', 0x2001⟩,
   ⟨.BNZ, 2, [.reg, .num, .abs], '!', 0x20f1⟩,
   ⟨.BRA, 1, [.num, .abs, .abs], 'B', 0x2ff0⟩,
   ⟨.BSWAP, 2, [.reg, .reg, .abs], 'U', 0x0004⟩,
   ⟨.BSWAP, 1, [.reg, .abs, .abs], 'u', 0x0004⟩,
   ⟨.BZ, 2, [.reg, .num, .abs], '!', 0x20f0⟩,
   ⟨.CSETN, 2, [.reg, .reg, .abs], 'U', 0x000a⟩]

def tmatch1 : List TEntry :=
  [⟨.CSETN, 1, [.reg, .abs, .abs], 'u', 0x000a⟩,
   ⟨.CSETNN, 2, [.reg, .reg, .abs], 'U', 0x000b⟩,
   ⟨.CSETNN, 1, [.reg, .abs, .abs], 'u', 0x000b⟩,
   ⟨.CSETNP, 2, [.reg, .reg, .abs], 'U', 0x000d⟩,
   ⟨.CSETNP, 1, [.reg, .abs, .abs], 'u', 0x000d⟩,
   ⟨.CSETNZ, 2, [.reg, .reg, .abs], 'U', 0x0009⟩,
   ⟨.CSETNZ, 1, [.reg, .abs, .abs], 'u', 0x0009⟩,
   ⟨.CSETP, 2, [.reg, .reg, .abs], 'U', 0x000c⟩,
   ⟨.CSETP, 1, [.reg, .abs, .abs], 'u', 0x000c⟩,
   ⟨.CSETZ, 2, [.reg, .reg, .abs], 'U', 0x0008⟩,
   ⟨.CSETZ, 1, [.reg, .abs, .abs], 'u', 0x0008⟩,
   ⟨.ENTER, 1, [.num, .abs, .abs], 'E', 0x0ff8⟩,
   ⟨.ERET, 0, [.abs, .abs, .abs], 'N', 0x0ff6⟩,
   ⟨.GET, 2, [.reg, .num, .abs], 'G', 0x0f08⟩,
   ⟨.ILL, 0, [.abs, .abs, .abs], 'N', 0x0ff0⟩,
   ⟨.IN, 2, [.reg, .reg, .abs], 'U', 0x000e⟩,
   ⟨.IRET, 0, [.abs, .abs, .abs], 'N', 0x0ff4⟩,
   ⟨.ISTAT, 1, [.reg, .abs, .abs], '1', 0x0f04⟩,
   ⟨.JAL, 1, [.num, .abs, .abs], 'J', 0x0ffd⟩,
   ⟨.JAL, 1, [.reg, .abs, .abs], '1', 0x0f01⟩]

def tmatch2 : List TEntry :=
  [⟨.JMP, 1, [.num, .abs, .abs], 'J', 0x0ffc⟩,
   ⟨.JMP, 1, [.reg, .abs, .abs], '1', 0x0f00⟩,
   ⟨.LD1, 2, [.reg, .mem, .abs], 'M', 0x1000⟩,
   ⟨.LD1I, 2, [.reg, .mem, .abs], 'M', 0x1001⟩,
   ⟨.LD2, 2, [.reg, .mem, .abs], 'M', 0x1002⟩,
   ⟨.LD2I, 2, [.reg, .mem, .abs], 'M', 0x1003⟩,
   ⟨.LD4, 2, [.reg, .mem, .abs], 'M', 0x1004⟩,
   ⟨.LD4I, 2, [.reg, .mem, .abs], 'M', 0x1005⟩,
   ⟨.LD8, 2, [.reg, .mem, .abs], 'M', 0x1006⟩,
   ⟨.LEA, 2, [.reg, .num, .abs], 'L', 0x0f0d⟩,
   ⟨.LEA, 2, [.reg, .mem, .abs], 'l', 0x0f0a⟩,
   ⟨.LI, 2, [.reg, .num, .abs], 'I', 0x0f0c⟩,
   ⟨.MV, 2, [.reg, .reg, .abs], '=', 0x90f0⟩,
   ⟨.NOP, 0, [.abs, .abs, .abs], 'N', 0x0ff1⟩,
   ⟨.OR, 3, [.reg, .reg, .reg], 'R', 0x9000⟩,
   ⟨.OR, 3, [.reg, .reg, .num], 'A', 0x3009⟩,
   ⟨.OR, 2, [.reg, .num, .abs], 'a', 0x3009⟩,
   ⟨.OR, 2, [.reg, .reg, .abs], 'r', 0x9000⟩,
   ⟨.OUT, 2, [.reg, .reg, .abs], 'U', 0x000f⟩,
   ⟨.RET, 0, [.abs, .abs, .abs], 'N', 0x0fe0⟩]

def tmatch3 : List TEntry :=
  [⟨.SET, 2, [.num, .reg, .abs], 'g', 0x0f09⟩,
   ⟨.SEXT1, 2, [.reg, .reg, .abs], 'U', 0x0005⟩,
   ⟨.SEXT1, 1, [.reg, .abs, .abs], 'u', 0x0005⟩,
   ⟨.SEXT2, 2, [.reg, .reg, .abs], 'U', 0x0006⟩,
   ⟨.SEXT2, 1, [.reg, .abs, .abs], 'u', 0x0006⟩,
   ⟨.SEXT4, 2, [.reg, .reg, .abs], 'U', 0x0007⟩,
   ⟨.SEXT4, 1, [.reg, .abs, .abs], 'u', 0x0007⟩,
   ⟨.SHL, 3, [.reg, .reg, .reg], 'R', 0xb000⟩,
   ⟨.SHL, 3, [.reg, .reg, .num], 'A', 0x300b⟩,
   ⟨.SHL, 2, [.reg, .num, .abs], 'a', 0x300b⟩,
   ⟨.SHL, 2, [.reg, .reg, .abs], 'r', 0xb000⟩,
   ⟨.SHR, 3, [.reg, .reg, .reg], 'R', 0xc000⟩,
   ⟨.SHR, 3, [.reg, .reg, .num], 'A', 0x300c⟩,
   ⟨.SHR, 2, [.reg, .num, .abs], 'a', 0x300c⟩,
   ⟨.SHR, 2, [.reg, .reg, .abs], 'r', 0xc000⟩,
   ⟨.SHRI, 3, [.reg, .reg, .reg], 'R', 0xd000⟩,
   ⟨.SHRI, 3, [.reg, .reg, .num], 'A', 0x300d⟩,
   ⟨.SHRI, 2, [.reg, .num, .abs], 'a', 0x300d⟩,
   ⟨.SHRI, 2, [.reg, .reg, .abs], 'r', 0xd000⟩,
   ⟨.SIGNAL, 1, [.num, .abs, .abs], 'E', 0x0ff9⟩]

def tmatch4 : List TEntry :=
  [⟨.SRET, 0, [.abs, .abs, .abs], 'N', 0x0ff5⟩,
   ⟨.ST1, 2, [.mem, .reg, .abs], 'm', 0x1008⟩,
   ⟨.ST2, 2, [.mem, .reg, .abs], 'm', 0x1009⟩,
   ⟨.ST4, 2, [.mem, .reg, .abs], 'm', 0x100a⟩,
   ⟨.ST8, 2, [.mem, .reg, .abs], 'm', 0x100b⟩,
   ⟨.SUB, 3, [.reg, .reg, .reg], 'R', 0x5000⟩,
   ⟨.SUB, 3, [.reg, .reg, .num], 'A', 0x3005⟩,
   ⟨.SUB, 2, [.reg, .num, .abs], 'a', 0x3005⟩,
   ⟨.SUB, 2, [.reg, .reg, .abs], 'r', 0x5000⟩,
   ⟨.SYS, 0, [.abs, .abs, .abs], 'N', 0x0ff2⟩,
   ⟨.WAIT, 0, [.abs, .abs, .abs], 'N', 0x0ff3⟩,
   ⟨.XOR, 3, [.reg, .reg, .reg], 'R', 0xa000⟩,
   ⟨.XOR, 3, [.reg, .reg, .num], 'A', 0x300a⟩,
   ⟨.XOR, 2, [.reg, .num, .abs], 'a', 0x300a⟩,
   ⟨.XOR, 2, [.reg, .reg, .abs], 'r', 0xa000⟩,
   ⟨.ZEXT1, 2, [.reg, .reg, .abs], 'U', 0x0001⟩,
   ⟨.ZEXT1, 1, [.reg, .abs, .abs], 'u', 0x0001⟩,
   ⟨.ZEXT2, 2, [.reg, .reg, .abs], 'U', 0x0002⟩,
   ⟨.ZEXT2, 1, [.reg, .abs, .abs], 'u', 0x0002⟩,
   ⟨.ZEXT4, 2, [.reg, .reg, .abs], 'U', 0x0003⟩]

def tmatch5 : List TEntry :=
  [⟨.ZEXT4, 1, [.reg, .abs, .abs], 'u', 0x0003⟩]

def tmatch : List TEntry := tmatch0 ++ tmatch1 ++ tmatch2 ++ tmatch3 ++ tmatch4 ++ tmatch5

/-- `match` (lines 651-663): first row with the same opcode, arity, and
argument-kind tuple. -/
def matchRow (op : Op) (na : Nat) (va : VArr) : Option TEntry :=
  tmatch.find? (fun e =>
    decide (e.op = op) && decide (e.na = na) &&
    (List.range na).all (fun n => decide ((getArg va n).k = e.args.getD n AKind.abs)))

/-! ### instruction encoder (eonasm.c lines 909-1069)

The `goto again` switch is a function recursing on the rewritten kind;
no rewrite chain is longer than two steps, so fuel 4 always suffices.
C `int` expressions stored into `uint8_t` keep their low eight bits of
the twos-complement bit pattern: `w32` gives the 32-bit pattern of an `int`,
and `sb x s` is `(uint8_t)(x >> s)` with the arithmetic shift used by the
compiler (exact for the shifts 0, 8, 16, 24 that occur). -/

def w32 (i : Int) : Nat := (i.emod 4294967296).toNat

def sb (x : Int) (s : Nat) : Nat := (w32 x >>> s) % 256

/-- Conversion of a `uint32_t` value to `int` (twos-complement wrap). -/
def toInt32 (v : Nat) : Int :=
  if v % M32 < 2147483648 then ((v % M32 : Nat) : Int) else ((v % M32 : Nat) : Int) - 4294967296

def encodeK : Nat → Nat → Bool → Nat → Char → Nat → VArr → List Nat × List (Nat × String)
  | 0, _, _, _, _, _, _ => ([], [])
  | f + 1, ln, out, pc, k, w, va =>
    if k = 'N' then
      ([(w >>> 8) % 256, w % 256], [])
    else if k = 'R' then
      ([((w >>> 8) ||| w32 va.a0.rno) % 256, (w32 (va.a1.rno * 16) ||| w32 va.a2.rno) % 256], [])
    else if k = 'r' then
      encodeK f ln out pc 'R' w
        { va with a1 := { va.a1 with rno := va.a0.rno }, a2 := { va.a2 with rno := va.a1.rno } }
    else if k = 'a' then
      encodeK f ln out pc 'A' w
        { va with a1 := { va.a1 with rno := va.a0.rno }, a2 := { va.a2 with val := va.a1.val } }
    else if k = 'A' then
      ([((w >>> 8) ||| w32 va.a0.rno) % 256, (w ||| w32 (va.a1.rno * 16)) % 256,
        sb va.a2.val 8, sb va.a2.val 0],
       if out ∧ (32768 ≤ va.a2.val ∨ va.a2.val < -32768) then [(ln, "inmediate out of range")] else [])
    else if k = 'U' then
      ([((w >>> 8) ||| w32 va.a0.rno) % 256, (w ||| w32 (va.a1.rno * 16)) % 256], [])
    else if k = 'u' then
      ([((w >>> 8) ||| w32 va.a0.rno) % 256, (w ||| w32 (va.a0.rno * 16)) % 256], [])
    else if k = 'E' then
      encodeK f ln out pc 'A' w
        { va with a0 := { va.a0 with rno := 0 }, a1 := { va.a1 with rno := 0 },
                  a2 := { va.a2 with val := va.a0.val } }
    else if k = 'B' then
      let off : Int := Int.tdiv (va.a0.val - (toInt32 pc + 4)) 2
      ([(w >>> 8) % 256, w % 256, sb off 8, sb off 0],
       if out ∧ (32768 ≤ off ∨ off < -32768) then [(ln, "branch out of range")] else [])
    else if k = 'b' then
      encodeK f ln out pc 'B' (w ||| w32 (va.a0.rno * 256) ||| w32 (va.a1.rno * 16))
        { va with a0 := { va.a0 with val := va.a2.val } }
    else if k = '!' then
      encodeK f ln out pc 'B' (w ||| w32 (va.a0.rno * 256))
        { va with a0 := { va.a0 with val := va.a1.val } }
    else if k = 'M' then
      ([((w >>> 8) ||| w32 va.a0.rno) % 256, (w ||| w32 (va.a1.rno * 16)) % 256,
        sb va.a1.val 8, sb va.a1.val 0],
       if out ∧ (32768 ≤ va.a1.val ∨ va.a1.val < -32768) then [(ln, "memory offset out of range")] else [])
    else if k = 'm' then
      encodeK f ln out pc 'M' w
        { va with a0 := { va.a0 with rno := va.a1.rno },
                  a1 := { va.a1 with rno := va.a0.rno, val := va.a0.val },
                  a2 := { va.a2 with rno := va.a1.rno } }
    else if k = 'J' then
      let off : Int := Int.tdiv (va.a0.val - (toInt32 pc + 6)) 2
      ([(w >>> 8) % 256, w % 256, sb off 24, sb off 16, sb off 8, sb off 0], [])
    else if k = 'L' then
      let off : Int := va.a1.val - (toInt32 pc + 6)
      ([(w >>> 8) % 256, (w ||| w32 (va.a0.rno * 16)) % 256,
        sb off 24, sb off 16, sb off 8, sb off 0], [])
    else if k = 'l' then
      if va.a1.rno = 15 then
        encodeK f ln out pc 'M' w
          { va with a0 := { va.a0 with rno := 0 }, a1 := { va.a1 with rno := va.a0.rno } }
      else
        encodeK f ln out pc 'A' 0x3004 { va with a2 := { va.a2 with val := va.a1.val } }
    else if k = 'I' then
      let n : Int := va.a1.val
      if n = 0 then ([(128 ||| w32 va.a0.rno) % 256, 255], [])
      else if n = 1 then ([(0 ||| w32 va.a0.rno) % 256, 248], [])
      else if -32768 ≤ n ∧ n ≤ 32767 then
        encodeK f ln out pc 'A' 0x30f9
          { va with a1 := { va.a1 with rno := 0 }, a2 := { va.a2 with val := va.a1.val } }
      else
        ([(w >>> 8) % 256, (w ||| w32 (va.a0.rno * 16)) % 256,
          sb n 24, sb n 16, sb n 8, sb n 0], [])
    else if k = '1' then
      ([(w >>> 8) % 256, (w ||| w32 (va.a0.rno * 16)) % 256], [])
    else if k = '=' then
      ([((w >>> 8) ||| w32 va.a0.rno) % 256, (w ||| w32 va.a1.rno) % 256], [])
    else if k = 'G' then
      ([(w >>> 8) % 256, (w ||| w32 (va.a0.rno * 16)) % 256, sb va.a1.val 8, sb va.a1.val 0],
       if out ∧ (va.a1.val < 0 ∨ 15 < va.a1.val) then [(ln, "special register of range")] else [])
    else if k = 'g' then
      encodeK f ln out pc 'G' w
        { va with a0 := { va.a0 with rno := va.a1.rno }, a1 := { va.a1 with val := va.a0.val } }
    else
      ([], [(ln, "opcode type")])

/-! ### output image (eonasm.c lines 169-200)

A HEX record is modelled abstractly as the bytes the formatter prints:
byte count, 16-bit address, record type (always 0 here), data bytes and
checksum byte.  The termination record `:00000001FF` is not a data
record and is left implicit. -/

structure HexRecord where
  count : Nat
  addr : Nat
  rtype : Nat
  data : List Nat
  cksum : Nat
deriving DecidableEq

structure EmitState where
  line : List Nat
  basepc : Nat
  outpc : Nat
  records : List HexRecord
deriving DecidableEq

def initEmit : EmitState := ⟨[], 0, 0, []⟩

/-- The record printed by `emit_flush`: `crc` accumulates in `uint8_t`,
and the checksum byte is `(0 - crc) & 0xff`. -/
def mkRecord (e : EmitState) : HexRecord :=
  let crc := e.line.foldl (fun a b => (a + b) % 256) ((e.line.length + (e.basepc >>> 8) + e.basepc) % 256)
  ⟨e.line.length % 256, e.basepc % M16, 0, e.line, (256 - crc) % 256⟩

def emit_flush (e : EmitState) : EmitState :=
  if e.line.length = 0 then e
  else { e with records := e.records ++ [mkRecord e], line := [] }

/-- `emit (uint16_t at, uint8_t byte)`: flush on a full buffer or a PC
discontinuity, then append. -/
def emit (e : EmitState) (at0 : Nat) (b : Nat) : EmitState :=
  if 32 ≤ e.line.length ∨ at0 ≠ e.outpc then
    let e1 := emit_flush e
    { e1 with basepc := at0, outpc := at0 + 1, line := [b % 256] }
  else
    { e with line := e.line ++ [b % 256], outpc := e.outpc + 1 }

/-- The call site `emit (pc + i, code[i])` (line 1101): the `unsigned`
sum is converted to the `uint16_t` parameter, i.e. reduced mod 2^16. -/
def emitSeq : EmitState → Nat → Nat → List Nat → EmitState
  | e, _, _, [] => e
  | e, pc, i, b :: bs => emitSeq (emit e (((pc + i) % M32) % M16) b) pc (i + 1) bs

/-! ### line processor (eonasm.c lines 668-1117)

One source line at a time.  `goto next` and the directive `continue`
statements both skip the emit step and the PC update; they are modelled
by the `cut` / `abort` results below.  The fatal table-overflow exit and
undefined behaviour inside an expression make the whole run `none`. -/

/-- Opcode/register collection: `while (isalnum (*p)) *id++ = toupper (*p++);` -/
def collectAlnum : List Nat → List Nat × List Nat
  | [] => ([], [])
  | c :: r =>
    if isalnum c then
      let nq := collectAlnum r
      (toupper c :: nq.1, nq.2)
    else ([], c :: r)

/-- Directive-name collection: `for (++p; isalpha (*p);) *id++ = toupper (*p++);` -/
def collectAlpha : List Nat → List Nat × List Nat
  | [] => ([], [])
  | c :: r =>
    if isalpha c then
      let nq := collectAlpha r
      (toupper c :: nq.1, nq.2)
    else ([], c :: r)

inductive LoopRes
  | ub
  | abort (tbl : SymTab) (errs : List (Nat × String))
  | done (code : List Nat) (p : List Nat) (tbl : SymTab) (errs : List (Nat × String))

/-- The `.BYTE` argument loop (lines 764-788). -/
def byteDir : Nat → Nat → Bool → Option Nat → Nat → SymTab → List (Nat × String) →
    List Nat → List Nat → LoopRes
  | 0, _, _, _, _, tbl, errs, code, p => LoopRes.done code p tbl errs
  | f + 1, ln, out, ml, pc, tbl, errs, code, p =>
    match skipSpaces p with
    | 34 :: r =>
      let s := r.takeWhile (fun c => c != 34)
      match r.dropWhile (fun c => c != 34) with
      | 34 :: r3 =>
        let p2 := skipSpaces r3
        match p2 with
        | 44 :: r4 => byteDir f ln out ml pc tbl errs (code ++ s) r4
        | _ => LoopRes.done (code ++ s) p2 tbl errs
      | _ => LoopRes.abort tbl (errs ++ [(ln, "incomplete string")])
    | q =>
      match exprTop ln ml (!out) pc tbl q errs with
      | none => LoopRes.ub
      | some o =>
        match o.p with
        | none => LoopRes.abort o.tbl o.errs
        | some p2 =>
          let errs2 := if out ∧ 255 < o.v then o.errs ++ [(ln, ".BYTE overflow")] else o.errs
          match p2 with
          | 44 :: r4 => byteDir f ln out ml pc o.tbl errs2 (code ++ [o.v % 256]) r4
          | _ => LoopRes.done (code ++ [o.v % 256]) p2 o.tbl errs2

/-- The `.WORD` argument loop (lines 789-800): each value is emitted
big-endian in 16 bits and range-checked with `vp.v > 65536` on the
final pass. -/
def wordDir : Nat → Nat → Bool → Option Nat → Nat → SymTab → List (Nat × String) →
    List Nat → List Nat → LoopRes
  | 0, _, _, _, _, tbl, errs, code, p => LoopRes.done code p tbl errs
  | f + 1, ln, out, ml, pc, tbl, errs, code, p =>
    match exprTop ln ml (!out) pc tbl p errs with
    | none => LoopRes.ub
    | some o =>
      match o.p with
      | none => LoopRes.abort o.tbl o.errs
      | some p2 =>
        let code2 := code ++ [(o.v >>> 8) % 256, o.v % 256]
        let errs2 := if out ∧ 65536 < o.v then o.errs ++ [(ln, ".WORD overflow")] else o.errs
        match p2 with
        | 44 :: r4 => wordDir f ln out ml pc o.tbl errs2 code2 r4
        | _ => LoopRes.done code2 p2 o.tbl errs2

inductive MemRes
  | ub
  | abort (tbl : SymTab) (errs : List (Nat × String))
  | done (a : Arg) (p : List Nat) (tbl : SymTab) (errs : List (Nat × String))

/-- A bracketed memory argument (lines 854-884), entered after the `[`. -/
def memArg (ln : Nat) (out : Bool) (ml : Option Nat) (pc : Nat) (tbl : SymTab)
    (errs : List (Nat × String)) (a : Arg) (r : List Nat) : MemRes :=
  let nq := collectAlnum (skipSpaces r)
  let rno := reg_find nq.1
  let errs1 := if rno < 0 then errs ++ [(ln, "unknown register")] else errs
  let a1 : Arg := { a with k := AKind.mem, val := 0, rno := rno }
  match skipSpaces nq.2 with
  | c :: r3 =>
    if c = 43 ∨ c = 45 then
      match exprTop ln ml (!out) pc tbl r3 errs1 with
      | none => MemRes.ub
      | some o =>
        match o.p with
        | none => MemRes.abort o.tbl o.errs
        | some p3 =>
          let a2 := { a1 with val := toInt32 (if c = 45 then (M32 - o.v % M32) % M32 else o.v) }
          match p3 with
          | 93 :: r4 => MemRes.done a2 r4 o.tbl o.errs
          | _ => MemRes.abort o.tbl (o.errs ++ [(ln, "memory access arg without \x27]\x27")])
    else if c = 93 then MemRes.done a1 r3 tbl errs1
    else MemRes.abort tbl (errs1 ++ [(ln, "memory access arg without \x27]\x27")])
  | [] => MemRes.abort tbl (errs1 ++ [(ln, "memory access arg without \x27]\x27")])

inductive ArgsRes
  | ub
  | abort (tbl : SymTab) (errs : List (Nat × String))
  | done (va : VArr) (na : Nat) (p : List Nat) (tbl : SymTab) (errs : List (Nat × String))

/-- The argument loop (lines 820-898): up to three comma-separated
arguments, each a register, a memory form, or an expression.  A name that
is not a register is re-parsed from its first character as an expression. -/
def argsLoop : Nat → Nat → Bool → Option Nat → Nat → SymTab → List (Nat × String) →
    VArr → Nat → Bool → List Nat → ArgsRes
  | 0, _, _, _, _, tbl, errs, va, na, _, p => ArgsRes.done va na p tbl errs
  | f + 1, ln, out, ml, pc, tbl, errs, va, na, sep, p =>
    if na < 3 then
      match skipSpaces p with
      | 44 :: r =>
        let errs2 := if sep then errs else errs ++ [(ln, "unexpected \x27,\x27")]
        argsLoop f ln out ml pc tbl errs2 va na false r
      | c :: r =>
        if isalpha c then
          let nq := collectAlnum (c :: r)
          if reg_find nq.1 < 0 then
            match exprTop ln ml (if out then false else true) pc tbl (c :: r) errs with
            | none => ArgsRes.ub
            | some o =>
              match o.p with
              | none => ArgsRes.abort o.tbl o.errs
              | some p2 =>
                argsLoop f ln out ml pc o.tbl o.errs
                  (setArg va na { getArg va na with k := AKind.num, val := toInt32 o.v }) (na + 1) true p2
          else
            argsLoop f ln out ml pc tbl errs
              (setArg va na { getArg va na with k := AKind.reg, rno := reg_find nq.1 }) (na + 1) true nq.2
        else if c = 91 then
          match memArg ln out ml pc tbl errs (getArg va na) r with
          | MemRes.ub => ArgsRes.ub
          | MemRes.abort t e => ArgsRes.abort t e
          | MemRes.done a p2 t e => argsLoop f ln out ml pc t e (setArg va na a) (na + 1) true p2
        else if c = 58 ∨ c = 46 ∨ c = 36 ∨ c = 39 ∨ c = 45 ∨ isdigit c then
          match exprTop ln ml (!out) pc tbl (c :: r) errs with
          | none => ArgsRes.ub
          | some o =>
            match o.p with
            | none => ArgsRes.abort o.tbl o.errs
            | some p2 =>
              argsLoop f ln out ml pc o.tbl o.errs
                (setArg va na { getArg va na with k := AKind.num, val := toInt32 o.v }) (na + 1) true p2
        else ArgsRes.done va na (c :: r) tbl errs
      | [] => ArgsRes.done va na [] tbl errs
    else ArgsRes.done va na p tbl errs

/-- The per-line mutable state of `assemble`. -/
structure LSt where
  tbl : SymTab
  ml : Option Nat
  more : Bool
  errs : List (Nat × String)
  em : EmitState
  pc : Nat

/-- The optional label at the start of a line (lines 683-718).  Labels
must begin in the first column.  Returns the state, the label index
touched (for `.EQU`), and the rest of the line; `none` is the fatal
table overflow. -/
def labelPart (pass : Nat) (out : Bool) (ln : Nat) (st : LSt) (input : List Nat) :
    Option (LSt × Option Nat × List Nat) :=
  match input with
  | [] => some (st, none, [])
  | c :: r =>
    if isalpha c ∨ c = 46 then
      let loc := c = 46
      let q := if loc then r else c :: r
      let nq := collectIdent q
      let errs1 := if loc ∧ st.ml = none then st.errs ++ [(ln, "local label without main label")] else st.errs
      let master := if loc then st.ml else none
      let q2 := match nq.2 with | 58 :: t => t | t => t
      match find_label st.tbl master nq.1 with
      | some i =>
        let st2 :=
          if pass = 0 then { st with errs := errs1 ++ [(ln, "duplicated label")] }
          else if (st.tbl.slots i).flags &&& LABEL_EQU = 0 ∧ (st.tbl.slots i).value ≠ st.pc then
            { st with
              errs := errs1
              more := true
              tbl := ⟨updSlot st.tbl.slots i { st.tbl.slots i with value := st.pc % M32 },
                      st.tbl.nlabel, st.tbl.lstack⟩ }
          else { st with errs := errs1 }
        some ({ st2 with ml := if loc then st2.ml else some i }, some i, q2)
      | none =>
        match add_label st.tbl master nq.1 st.pc with
        | none => none
        | some ti =>
          let errs2 := if out then errs1 ++ [(ln, "undefined label on last pass !")] else errs1
          some ({ st with
                  tbl := ti.1
                  more := true
                  errs := errs2
                  ml := if loc then st.ml else some ti.2 }, some ti.2, q2)
    else some (st, none, input)

inductive BodyRes
  | ub
  | cut (st : LSt)
  | go (st : LSt) (code : List Nat) (bytesN : Nat) (org : Bool) (space : Nat) (p : List Nat)

/-- The directive or instruction body of a line (lines 723-1071). -/
def bodyPart (out : Bool) (ln : Nat) (st : LSt) (lbl : Option Nat) (p : List Nat) : BodyRes :=
  match p with
  | [] => BodyRes.go st [] 0 false 0 []
  | 46 :: r =>
    let dq := collectAlpha r
    let p2 := skipSpaces dq.2
    if dq.1 = bytesOf "ORG" then
      match exprTop ln st.ml false st.pc st.tbl p2 st.errs with
      | none => BodyRes.ub
      | some o =>
        match o.p with
        | none => BodyRes.cut { st with tbl := o.tbl, errs := o.errs }
        | some p3 =>
          BodyRes.go { st with tbl := o.tbl, errs := o.errs } []
            (((o.v % M32) + M32 - st.pc % M32) % M32) true 0 p3
    else if dq.1 = bytesOf "EQU" then
      match exprTop ln st.ml false st.pc st.tbl p2 st.errs with
      | none => BodyRes.ub
      | some o =>
        match o.p with
        | none => BodyRes.cut { st with tbl := o.tbl, errs := o.errs }
        | some p3 =>
          match lbl with
          | some i =>
            BodyRes.go
              { st with
                errs := o.errs
                tbl := ⟨updSlot o.tbl.slots i
                         { o.tbl.slots i with
                           value := o.v % M32
                           flags := (o.tbl.slots i).flags ||| (LABEL_USED ||| LABEL_EQU) },
                        o.tbl.nlabel, o.tbl.lstack⟩ } [] 0 false 0 p3
          | none => BodyRes.cut { st with tbl := o.tbl, errs := o.errs ++ [(ln, ".EQU without label")] }
    else if dq.1 = bytesOf "ZERO" then
      match exprTop ln st.ml false st.pc st.tbl p2 st.errs with
      | none => BodyRes.ub
      | some o =>
        match o.p with
        | none => BodyRes.cut { st with tbl := o.tbl, errs := o.errs }
        | some p3 =>
          if 128 < o.v then BodyRes.cut { st with tbl := o.tbl, errs := o.errs ++ [(ln, ".ZERO size overflow")] }
          else BodyRes.go { st with tbl := o.tbl, errs := o.errs } (List.replicate o.v 0) o.v false 0 p3
    else if dq.1 = bytesOf "SPACE" then
      match exprTop ln st.ml false st.pc st.tbl p2 st.errs with
      | none => BodyRes.ub
      | some o =>
        match o.p with
        | none => BodyRes.cut { st with tbl := o.tbl, errs := o.errs }
        | some p3 => BodyRes.go { st with tbl := o.tbl, errs := o.errs } [] o.v false o.v p3
    else if dq.1 = bytesOf "BYTE" then
      match byteDir (p2.length + 1) ln out st.ml st.pc st.tbl st.errs [] p2 with
      | LoopRes.ub => BodyRes.ub
      | LoopRes.abort t e => BodyRes.cut { st with tbl := t, errs := e }
      | LoopRes.done code p3 t e => BodyRes.go { st with tbl := t, errs := e } code code.length false 0 p3
    else if dq.1 = bytesOf "WORD" then
      match wordDir (p2.length + 1) ln out st.ml st.pc st.tbl st.errs [] p2 with
      | LoopRes.ub => BodyRes.ub
      | LoopRes.abort t e => BodyRes.cut { st with tbl := t, errs := e }
      | LoopRes.done code p3 t e => BodyRes.go { st with tbl := t, errs := e } code code.length false 0 p3
    else BodyRes.cut { st with errs := st.errs ++ [(ln, "unknown directive")] }
  | c :: r =>
    if isalpha c then
      let oq := collectAlnum (c :: r)
      match op_find oq.1 with
      | none => BodyRes.cut { st with errs := st.errs ++ [(ln, "unknown opcode")] }
      | some op =>
        match argsLoop (oq.2.length + 2) ln out st.ml st.pc st.tbl st.errs ⟨arg0, arg0, arg0⟩ 0 false oq.2 with
        | ArgsRes.ub => BodyRes.ub
        | ArgsRes.abort t e => BodyRes.cut { st with tbl := t, errs := e }
        | ArgsRes.done va na p3 t e =>
          let p4 := skipSpaces p3
          match matchRow op na va with
          | none => BodyRes.cut { st with tbl := t, errs := e ++ [(ln, "unknown combination of opcode and args")] }
          | some te =>
            let ce := encodeK 4 ln out st.pc te.kind te.word va
            BodyRes.go { st with tbl := t, errs := e ++ ce.2 } ce.1 ce.1.length false 0 p4
    else BodyRes.go st [] 0 false 0 (c :: r)

/-- One whole line: label, body, emission, PC update, trailing check. -/
def assembleLine (pass : Nat) (out : Bool) (ln : Nat) (st0 : LSt) (input : List Nat) : Option LSt :=
  match labelPart pass out ln st0 input with
  | none => none
  | some (st, lbl, q) =>
    match bodyPart out ln st lbl (skipSpaces q) with
    | BodyRes.ub => none
    | BodyRes.cut st2 => some st2
    | BodyRes.go st2 code bytesN org space p5 =>
      let em2 := if out ∧ ¬org ∧ bytesN ≠ 0 ∧ space = 0 then emitSeq st2.em st2.pc 0 code else st2.em
      let st3 := { st2 with em := em2, pc := (st2.pc + bytesN) % M32 }
      match p5 with
      | [] => some st3
      | 59 :: _ => some st3
      | 35 :: _ => some st3
      | _ => some { st3 with errs := st3.errs ++ [(ln, "extra characters at end")] }

/-- `assemble` over a whole file given as a list of lines (the `readline`
loop); line numbers start at 1. -/
def asmLines (pass : Nat) (out : Bool) : List (List Nat) → Nat → LSt → Option LSt
  | [], _, st => some st
  | l :: ls, n, st =>
    match assembleLine pass out n st l with
    | none => none
    | some st2 => asmLines pass out ls (n + 1) st2

/-! ### pass driver (eonasm.c lines 1158-1191)

State carried between passes; `another`/`last` reproduce the flags logic
of `main`.  A pass only runs while no error has been recorded, matching
`for (; !errcount && another; ++pass)`; once `another` is false the state
is a fixed point.  A single input file is modelled (the driver simply
concatenates files). -/

structure PSt where
  tbl : SymTab
  errs : List (Nat × String)
  em : EmitState
  pass : Nat
  last : Bool
  another : Bool

def initPSt : PSt := ⟨initTab, [], initEmit, 0, false, true⟩

def passStep (prog : List (List Nat)) (s : PSt) : Option PSt :=
  if s.errs = [] ∧ s.another then
    match asmLines s.pass s.last prog 1 ⟨s.tbl, none, false, s.errs, s.em, 0⟩ with
    | none => none
    | some st =>
      some ⟨st.tbl, st.errs, if s.last then emit_flush st.em else st.em, s.pass + 1,
            if s.last then s.last else !st.more, !s.last⟩
  else some s

def passSeq (prog : List (List Nat)) : Nat → Option PSt
  | 0 => some initPSt
  | n + 1 =>
    match passSeq prog n with
    | none => none
    | some s => passStep prog s

/-! ### concrete test programs

Labels start in column one; instructions are indented (the label parser
of `assemble` runs on the first character of the line). -/

def progC2 : List (List Nat) :=
  [bytesOf " LI R1, Z", bytesOf "A:", bytesOf "X .EQU A", bytesOf "Z .EQU $10000"]

def progC3 : List (List Nat) := [bytesOf " BRA X"]

def progC4 : List (List Nat) := [bytesOf "A: ADD R1, R1, 1", bytesOf "B: BNE R1, R0, A"]

def initLSt : LSt := ⟨initTab, none, false, [], initEmit, 0⟩

/-! ### canonical operand text

`numChars v` is the decimal numeral of `v` as input bytes; `chainN`
joins operands with operators (a blank after each operator keeps a `-`
operator from lexing as a negative literal).  `opSet` is the operator
byte set of the evaluator. -/

def digitByte (d : Nat) : Nat := 48 + d

def numChars (n : Nat) : List Nat :=
  if n = 0 then [48] else ((Nat.digits 10 n).reverse).map digitByte

def opSet : List Nat := [43, 45, 42, 47, 37, 38, 124]

def chainN : List Nat → List Nat → List Nat
  | [], _ => []
  | v :: _, [] => numChars v
  | v :: vs, o :: os => numChars v ++ o :: 32 :: chainN vs os

/-- Checksum property of a HEX record: the low byte of the sum of the
byte-count byte, both address bytes, the record type, the data bytes and
the checksum byte is 0. -/
def ckSumOK (r : HexRecord) : Prop :=
  (r.count + (r.addr >>> 8) + r.addr % 256 + r.rtype + r.data.sum + r.cksum) % 256 = 0

/-- A one-label table whose slot 0 is an `.EQU` label named X with value 9. -/
def tabC2 : SymTab := ⟨updSlot (fun _ => emptyLabel) 0 ⟨9, 256, 256, 3, 1, [88]⟩, 1, 256⟩

def stC2 : LSt := ⟨tabC2, none, false, [], initEmit, 0⟩

/-! ### helper lemmas -/

theorem skipSpaces_big (c : Nat) (r : List Nat) (h : 32 < c) : skipSpaces (c :: r) = c :: r := by
  simp only [skipSpaces]
  rw [if_neg (by omega)]

theorem foldl_mul_add (L : List Nat) : ∀ x : Nat,
    List.foldl (fun v d => v * 10 + d) x L = x * 10 ^ L.length + Nat.ofDigits 10 L.reverse := by
  induction L with
  | nil => intro x; simp [Nat.ofDigits]
  | cons d L ih =>
    intro x
    simp only [List.foldl_cons, List.reverse_cons, List.length_cons]
    rw [ih (x * 10 + d), Nat.ofDigits_append]
    simp [Nat.ofDigits_singleton]
    ring

theorem foldl_dec_mod (L : List Nat) : ∀ x : Nat, x < M32 →
    List.foldl (fun v d => (v * 10 + d) % M32) x L =
      (List.foldl (fun v d => v * 10 + d) x L) % M32 := by
  induction L with
  | nil => intro x hx; simp [Nat.mod_eq_of_lt hx]
  | cons d L ih =>
    intro x _
    simp only [List.foldl_cons]
    rw [ih _ (Nat.mod_lt _ (by decide)), foldl_mul_add, foldl_mul_add]
    exact ((Nat.mod_modEq (x * 10 + d) M32).mul_right (10 ^ L.length)).add_right _

theorem parseDec_digits (L : List Nat) : ∀ (x : Nat) (rest : List Nat),
    (∀ d ∈ L, d < 10) → headIsDigit rest = false →
    parseDecLoop x (L.map digitByte ++ rest) =
      (List.foldl (fun v d => (v * 10 + d) % M32) x L, rest) := by
  induction L with
  | nil =>
    intro x rest _ hrest
    cases rest with
    | nil => rfl
    | cons c r =>
      simp only [List.map_nil, List.nil_append, parseDecLoop, List.foldl_nil]
      rw [if_neg]
      simp only [headIsDigit] at hrest
      simp [hrest]
  | cons d L ih =>
    intro x rest hL hrest
    have hd : d < 10 := hL d (List.mem_cons_self d L)
    simp only [List.map_cons, List.cons_append, parseDecLoop, List.foldl_cons, digitByte]
    rw [if_pos (by simp [isdigit]; omega)]
    have : 48 + d - 48 = d := by omega
    rw [this]
    exact ih _ rest (fun e he => hL e (List.mem_cons_of_mem d he)) hrest

theorem numChars_digits (v : Nat) : ∀ c ∈ numChars v, 48 ≤ c ∧ c < 58 := by
  intro c hc
  simp only [numChars] at hc
  by_cases h0 : v = 0
  · rw [if_pos h0] at hc
    simp at hc
    omega
  · rw [if_neg h0] at hc
    simp only [List.mem_map, List.mem_reverse] at hc
    obtain ⟨d, hd, rfl⟩ := hc
    have := Nat.digits_lt_base (by norm_num) hd
    simp only [digitByte]
    omega

theorem numChars_ne_nil (v : Nat) : numChars v ≠ [] := by
  simp only [numChars]
  by_cases h0 : v = 0
  · simp [h0]
  · rw [if_neg h0]
    simp [Nat.digits_ne_nil_iff_ne_zero, h0]

theorem parseDec_numChars (v : Nat) (rest : List Nat) (hv : v < M32)
    (hrest : headIsDigit rest = false) :
    parseDecLoop 0 (numChars v ++ rest) = (v, rest) := by
  by_cases h0 : v = 0
  · subst h0
    simp only [numChars, if_pos rfl, List.cons_append, List.nil_append, parseDecLoop]
    rw [if_pos (by simp [isdigit])]
    cases rest with
    | nil => rfl
    | cons c r =>
      simp only [parseDecLoop]
      simp only [headIsDigit] at hrest
      rw [if_neg (by simp [hrest])]
      rfl
  · simp only [numChars, if_neg h0]
    rw [parseDec_digits _ 0 rest (fun d hd => Nat.digits_lt_base (by norm_num) (List.mem_reverse.mp hd)) hrest]
    rw [foldl_dec_mod _ 0 (by decide), foldl_mul_add]
    simp [List.reverse_reverse, Nat.ofDigits_digits, Nat.mod_eq_of_lt hv]

theorem exprGo_end (f ln : Nat) (ml : Option Nat) (au : Bool) (pc : Nat) (tbl : SymTab)
    (sval sop : List Nat) (errs : List (Nat × String)) :
    exprGo (f + 1) ln ml au pc tbl [] sval sop errs = some ⟨some [], sval, sop, tbl, errs⟩ := rfl

theorem exprGo_space (f ln : Nat) (ml : Option Nat) (au : Bool) (pc : Nat) (tbl : SymTab)
    (t sval sop : List Nat) (errs : List (Nat × String)) :
    exprGo (f + 1) ln ml au pc tbl (32 :: t) sval sop errs =
    exprGo (f + 1) ln ml au pc tbl t sval sop errs := by
  simp only [exprGo]
  rw [show skipSpaces (32 :: t) = skipSpaces t from by simp [skipSpaces]]

theorem exprGo_num (f ln : Nat) (ml : Option Nat) (au : Bool) (pc : Nat) (tbl : SymTab)
    (v : Nat) (rest sval sop : List Nat) (errs : List (Nat × String))
    (hv : v < M32) (hrest : headIsDigit rest = false)
    (hlen : sval.length = sop.length) (hcap : sval.length < 8) :
    exprGo (f + 1) ln ml au pc tbl (numChars v ++ rest) sval sop errs =
    exprGo f ln ml au pc tbl rest (v :: sval) sop errs := by
  obtain ⟨c, cs, hnum⟩ : ∃ c cs, numChars v = c :: cs := by
    cases hn : numChars v with
    | nil => exact absurd hn (numChars_ne_nil v)
    | cons c cs => exact ⟨c, cs, rfl⟩
  have hc : 48 ≤ c ∧ c < 58 := numChars_digits v c (hnum ▸ List.mem_cons_self c cs)
  have hparse := parseDec_numChars v rest hv hrest
  rw [hnum, List.cons_append] at hparse ⊢
  simp only [exprGo]
  rw [skipSpaces_big c (cs ++ rest) (by omega)]
  have e40 : (c = 40) = False := by simp; omega
  have e36 : (c = 36) = False := by simp; omega
  have e45 : (c = 45) = False := by simp; omega
  have edig : isdigit c = true := by simp [isdigit]; omega
  have hg : (sval.length = sop.length ∧ sval.length < 8) = True := eq_true ⟨hlen, hcap⟩
  simp [e40, e36, e45, edig, hparse, hg]

theorem exprGo_op (f ln : Nat) (ml : Option Nat) (au : Bool) (pc : Nat) (tbl : SymTab)
    (oc : Nat) (rest sval sop : List Nat) (errs : List (Nat × String))
    (hop : oc ∈ opSet) (hrest : headIsDigit rest = false)
    (hlen : sop.length + 1 = sval.length) (hcap : sop.length < 8) :
    exprGo (f + 1) ln ml au pc tbl (oc :: rest) sval sop errs =
    exprGo f ln ml au pc tbl rest sval (oc :: sop) errs := by
  have hg : (sop.length + 1 = sval.length ∧ sop.length < 8) = True := eq_true ⟨hlen, hcap⟩
  fin_cases hop <;>
  · simp only [exprGo]
    rw [skipSpaces_big _ rest (by omega)]
    simp [hrest, hg, isdigit]

theorem opSet_head_not_digit (oc : Nat) (t : List Nat) (h : oc ∈ opSet) :
    headIsDigit (oc :: t) = false := by fin_cases h <;> rfl

theorem space_head_not_digit (t : List Nat) : headIsDigit (32 :: t) = false := rfl

theorem numChars_len_pos (v : Nat) : 1 ≤ (numChars v).length := by
  cases hn : numChars v with
  | nil => exact absurd hn (numChars_ne_nil v)
  | cons x xs => simp

theorem exprGo_chain3 (f ln : Nat) (ml : Option Nat) (au : Bool) (pc : Nat) (tbl : SymTab)
    (a b c o1 o2 : Nat) (errs : List (Nat × String))
    (ha : a < M32) (hb : b < M32) (hc : c < M32) (h1 : o1 ∈ opSet) (h2 : o2 ∈ opSet) :
    exprGo (f + 6) ln ml au pc tbl
      (numChars a ++ o1 :: 32 :: (numChars b ++ o2 :: 32 :: numChars c)) [] [] errs =
    some ⟨some [], [c, b, a], [o2, o1], tbl, errs⟩ := by
  rw [show f + 6 = f + 5 + 1 from rfl,
      exprGo_num (f + 5) ln ml au pc tbl a _ [] [] errs ha (opSet_head_not_digit o1 _ h1) rfl (by simp)]
  rw [show f + 5 = f + 4 + 1 from rfl,
      exprGo_op (f + 4) ln ml au pc tbl o1 _ [a] [] errs h1 (space_head_not_digit _) rfl (by simp)]
  rw [show f + 4 = f + 3 + 1 from rfl,
      exprGo_space (f + 3) ln ml au pc tbl _ [a] [o1] errs,
      exprGo_num (f + 3) ln ml au pc tbl b _ [a] [o1] errs hb (opSet_head_not_digit o2 _ h2) rfl (by simp)]
  rw [show f + 3 = f + 2 + 1 from rfl,
      exprGo_op (f + 2) ln ml au pc tbl o2 _ [b, a] [o1] errs h2 (space_head_not_digit _) rfl (by simp)]
  rw [show f + 2 = f + 1 + 1 from rfl,
      exprGo_space (f + 1) ln ml au pc tbl _ [b, a] [o2, o1] errs]
  rw [show (numChars c : List Nat) = numChars c ++ [] from (List.append_nil _).symm]
  rw [exprGo_num (f + 1) ln ml au pc tbl c [] [b, a] [o2, o1] errs hc rfl rfl (by simp)]
  exact exprGo_end f ln ml au pc tbl [c, b, a] [o2, o1] errs

theorem exprGo_num_break (f ln : Nat) (ml : Option Nat) (au : Bool) (pc : Nat) (tbl : SymTab)
    (v : Nat) (rest sval sop : List Nat) (errs : List (Nat × String))
    (hv : v < M32) (hrest : headIsDigit rest = false)
    (hcap : ¬ (sval.length = sop.length ∧ sval.length < 8)) :
    exprGo (f + 1) ln ml au pc tbl (numChars v ++ rest) sval sop errs =
    some ⟨some rest, sval, sop, tbl, errs⟩ := by
  obtain ⟨c, cs, hnum⟩ : ∃ c cs, numChars v = c :: cs := by
    cases hn : numChars v with
    | nil => exact absurd hn (numChars_ne_nil v)
    | cons c cs => exact ⟨c, cs, rfl⟩
  have hc : 48 ≤ c ∧ c < 58 := numChars_digits v c (hnum ▸ List.mem_cons_self c cs)
  have hparse := parseDec_numChars v rest hv hrest
  rw [hnum, List.cons_append] at hparse ⊢
  simp only [exprGo]
  rw [skipSpaces_big c (cs ++ rest) (by omega)]
  have e40 : (c = 40) = False := by simp; omega
  have e36 : (c = 36) = False := by simp; omega
  have e45 : (c = 45) = False := by simp; omega
  have edig : isdigit c = true := by simp [isdigit]; omega
  have hg : (sval.length = sop.length ∧ sval.length < 8) = False := eq_false hcap
  simp [e40, e36, e45, edig, hparse, hg]

theorem chainN_len (vs : List Nat) : ∀ os : List Nat, vs.length = os.length + 1 →
    vs.length ≤ (chainN vs os).length := by
  induction vs with
  | nil => intro os h; simp at h
  | cons v vs ih =>
    intro os h
    cases os with
    | nil =>
      simp only [List.length_cons, List.length_nil] at h
      simp only [chainN, List.length_cons]
      have := numChars_len_pos v
      omega
    | cons o os =>
      simp only [chainN, List.length_append, List.length_cons]
      have hv := numChars_len_pos v
      have hih := ih os (by simpa using h)
      omega

theorem exprGo_chainN (ln : Nat) (ml : Option Nat) (au : Bool) (pc : Nat) (vs : List Nat) :
    ∀ (os sval sop : List Nat) (f : Nat) (tbl : SymTab) (errs : List (Nat × String)),
    vs.length = os.length + 1 →
    (∀ v ∈ vs, v < M32) → (∀ o ∈ os, o ∈ opSet) →
    sval.length = sop.length → sval.length + vs.length ≤ 8 →
    exprGo (f + 2 * vs.length) ln ml au pc tbl (chainN vs os) sval sop errs =
    some ⟨some [], vs.reverse ++ sval, os.reverse ++ sop, tbl, errs⟩ := by
  induction vs with
  | nil => intro os _ _ _ _ _ h; simp at h
  | cons v vs ih =>
    intro os sval sop f tbl errs h hv ho hal hcap
    cases os with
    | nil =>
      have hvs : vs = [] := by
        cases vs with
        | nil => rfl
        | cons _ _ => simp at h
      subst hvs
      simp only [chainN]
      rw [show f + 2 * ([v] : List Nat).length = f + 1 + 1 by simp]
      rw [show (numChars v : List Nat) = numChars v ++ [] from (List.append_nil _).symm]
      rw [exprGo_num (f + 1) ln ml au pc tbl v [] sval sop errs
            (hv v (List.mem_cons_self v [])) rfl hal (by simp at hcap ⊢; omega)]
      rw [exprGo_end]
      simp
    | cons o os =>
      obtain ⟨w, vs2, rfl⟩ : ∃ w vs2, vs = w :: vs2 := by
        cases vs with
        | nil => simp at h
        | cons w vs2 => exact ⟨w, vs2, rfl⟩
      simp only [chainN]
      have hlen2 : (w :: vs2).length = (os).length + 1 := by simpa using h
      rw [show f + 2 * ((v :: w :: vs2) : List Nat).length = (f + 2 * (w :: vs2).length + 1) + 1 by
        simp [List.length_cons]; ring]
      rw [exprGo_num (f + 2 * (w :: vs2).length + 1) ln ml au pc tbl v _ sval sop errs
            (hv v (List.mem_cons_self v _))
            (opSet_head_not_digit o _ (ho o (List.mem_cons_self o os)))
            hal (by simp at hcap ⊢; omega)]
      rw [show f + 2 * ((w :: vs2) : List Nat).length + 1 = (f + 2 * (w :: vs2).length) + 1 from rfl]
      rw [exprGo_op (f + 2 * (w :: vs2).length) ln ml au pc tbl o _ (v :: sval) sop errs
            (ho o (List.mem_cons_self o os)) (space_head_not_digit _)
            (by simp [hal]) (by simp at hcap ⊢; omega)]
      rw [show f + 2 * ((w :: vs2) : List Nat).length = (f + 2 * vs2.length + 1) + 1 by
        simp [List.length_cons]; ring]
      rw [exprGo_space (f + 2 * vs2.length + 1) ln ml au pc tbl _ (v :: sval) (o :: sop) errs]
      rw [show (f + 2 * vs2.length + 1) + 1 = f + 2 * ((w :: vs2) : List Nat).length by
        simp [List.length_cons]; ring]
      rw [ih os (v :: sval) (o :: sop) f tbl errs hlen2
            (fun x hx => hv x (List.mem_cons_of_mem v hx))
            (fun x hx => ho x (List.mem_cons_of_mem o hx))
            (by simp [hal]) (by simp at hcap ⊢; omega)]
      simp

theorem exprGo_chainN_break (ln : Nat) (ml : Option Nat) (au : Bool) (pc : Nat) (vs : List Nat) :
    ∀ (os sval sop : List Nat) (f : Nat) (tbl : SymTab) (errs : List (Nat × String)),
    vs.length = os.length + 1 →
    (∀ v ∈ vs, v < M32) → (∀ o ∈ os, o ∈ opSet) →
    sval.length = sop.length → sval.length ≤ 8 → 8 < sval.length + vs.length →
    ∃ rest s1 s2, exprGo (f + 2 * vs.length) ln ml au pc tbl (chainN vs os) sval sop errs =
      some ⟨some rest, s1, s2, tbl, errs⟩ ∧ s1.length = 8 ∧ s2.length = 8 := by
  induction vs with
  | nil => intro os _ _ _ _ _ h; simp at h
  | cons v vs ih =>
    intro os sval sop f tbl errs h hv ho hal hle hbig
    by_cases h8 : sval.length = 8
    · -- the ninth value: the push guard fails and the loop breaks
      obtain ⟨g, hg⟩ : ∃ g, f + 2 * ((v :: vs) : List Nat).length = g + 1 :=
        ⟨f + 2 * (v :: vs).length - 1, by simp [List.length_cons]; omega⟩
      cases os with
      | nil =>
        simp only [chainN]
        rw [hg]
        rw [show (numChars v : List Nat) = numChars v ++ [] from (List.append_nil _).symm]
        rw [exprGo_num_break g ln ml au pc tbl v [] sval sop errs
              (hv v (List.mem_cons_self v _)) rfl (by omega)]
        exact ⟨[], sval, sop, rfl, h8, by omega⟩
      | cons o os =>
        simp only [chainN]
        rw [hg]
        rw [exprGo_num_break g ln ml au pc tbl v _ sval sop errs
              (hv v (List.mem_cons_self v _))
              (opSet_head_not_digit o _ (ho o (List.mem_cons_self o os))) (by omega)]
        exact ⟨_, sval, sop, rfl, h8, by omega⟩
    · -- still room: push the value and the operator and recurse
      obtain ⟨o, os2, rfl⟩ : ∃ o os2, os = o :: os2 := by
        cases os with
        | nil =>
          exfalso
          have : vs = [] := by
            cases vs with
            | nil => rfl
            | cons _ _ => simp at h
          subst this
          simp at hbig
          omega
        | cons o os2 => exact ⟨o, os2, rfl⟩
      obtain ⟨w, vs2, rfl⟩ : ∃ w vs2, vs = w :: vs2 := by
        cases vs with
        | nil => simp at h
        | cons w vs2 => exact ⟨w, vs2, rfl⟩
      simp only [chainN]
      rw [show f + 2 * ((v :: w :: vs2) : List Nat).length = (f + 2 * (w :: vs2).length + 1) + 1 by
        simp [List.length_cons]; ring]
      rw [exprGo_num (f + 2 * (w :: vs2).length + 1) ln ml au pc tbl v _ sval sop errs
            (hv v (List.mem_cons_self v _))
            (opSet_head_not_digit o _ (ho o (List.mem_cons_self o _)))
            hal (by omega)]
      rw [show f + 2 * ((w :: vs2) : List Nat).length + 1 = (f + 2 * (w :: vs2).length) + 1 from rfl]
      rw [exprGo_op (f + 2 * (w :: vs2).length) ln ml au pc tbl o _ (v :: sval) sop errs
            (ho o (List.mem_cons_self o _)) (space_head_not_digit _)
            (by simp [hal]) (by omega)]
      rw [show f + 2 * ((w :: vs2) : List Nat).length = (f + 2 * vs2.length + 1) + 1 by
        simp [List.length_cons]; ring]
      rw [exprGo_space (f + 2 * vs2.length + 1) ln ml au pc tbl _ (v :: sval) (o :: sop) errs]
      rw [show (f + 2 * vs2.length + 1) + 1 = f + 2 * ((w :: vs2) : List Nat).length by
        simp [List.length_cons]; ring]
      exact ih os2 (v :: sval) (o :: sop) f tbl errs (by simpa using h)
        (fun x hx => hv x (List.mem_cons_of_mem v hx))
        (fun x hx => ho x (List.mem_cons_of_mem o hx))
        (by simp [hal]) (by simp; omega) (by simp at hbig ⊢; omega)

theorem collectIdent_all (L : List Nat) (h : ∀ x ∈ L, x = 95 ∨ isalnum x = true) :
    collectIdent L = (L.map toupper, []) := by
  induction L with
  | nil => rfl
  | cons c r ih =>
    simp only [collectIdent]
    rw [if_pos (h c (List.mem_cons_self c r))]
    rw [ih (fun x hx => h x (List.mem_cons_of_mem c hx))]
    simp

theorem alpha_char_factsA : ∀ c : Nat, c < 256 → isalpha c = true →
    32 < c ∧ c ≠ 40 ∧ c ≠ 36 ∧ isdigit c = false ∧ c ≠ 45 ∧ c ≠ 39 ∧ c ≠ 43 := by decide

theorem alpha_char_factsB : ∀ c : Nat, c < 256 → isalpha c = true →
    c ≠ 38 ∧ c ≠ 124 ∧ c ≠ 42 ∧ c ≠ 37 ∧ c ≠ 47 ∧ c ≠ 58 ∧ c ≠ 46 := by decide

theorem exprTop_num (ln : Nat) (ml : Option Nat) (au : Bool) (pc : Nat) (tbl : SymTab)
    (errs : List (Nat × String)) (v : Nat) (hv : v < M32) :
    exprTop ln ml au pc tbl (numChars v) errs = some ⟨some [], v, tbl, errs⟩ := by
  unfold exprTop exprF
  have h4 : 4 ≤ 2 * (numChars v).length + 2 := by
    have := numChars_len_pos v
    omega
  obtain ⟨g, hg⟩ := Nat.exists_eq_add_of_le h4
  rw [hg, Nat.add_comm 4 g, show g + 4 = g + 3 + 1 from rfl]
  rw [show (numChars v : List Nat) = numChars v ++ [] from (List.append_nil _).symm]
  rw [exprGo_num (g + 3) ln ml au pc tbl v [] [] [] errs hv rfl rfl (by simp)]
  rw [show g + 3 = g + 2 + 1 from rfl, exprGo_end]
  simp [exprFin, reduceStack]

theorem foldl_crc (L : List Nat) : ∀ x : Nat, x < 256 →
    List.foldl (fun a b => (a + b) % 256) x L = (x + L.sum) % 256 := by
  induction L with
  | nil => intro x hx; simp [Nat.mod_eq_of_lt hx]
  | cons d L ih =>
    intro x hx
    simp only [List.foldl_cons, List.sum_cons]
    rw [ih _ (Nat.mod_lt _ (by omega))]
    calc ((x + d) % 256 + L.sum) % 256
        = (x + d + L.sum) % 256 := (Nat.mod_modEq (x + d) 256).add_right _
      _ = (x + (d + L.sum)) % 256 := by ring_nf

theorem mkRecord_ck (e : EmitState) : ckSumOK (mkRecord e) ∧ (mkRecord e).rtype = 0 := by
  unfold ckSumOK mkRecord
  simp only []
  refine ⟨?_, trivial⟩
  rw [foldl_crc _ _ (Nat.mod_lt _ (by omega))]
  rw [Nat.shiftRight_eq_div_pow, Nat.shiftRight_eq_div_pow]
  show (e.line.length % 256 + e.basepc % M16 / 2 ^ 8 + e.basepc % M16 % 256 + 0 + e.line.sum +
      (256 - ((e.line.length + e.basepc / 2 ^ 8 + e.basepc) % 256 + e.line.sum) % 256) % 256) % 256 = 0
  have h1 : e.basepc % M16 / 2 ^ 8 = e.basepc / 2 ^ 8 % 256 := by
    show e.basepc % 65536 / 256 = e.basepc / 256 % 256
    exact Nat.mod_mul_right_div_self e.basepc 256 256
  have h2 : e.basepc % M16 % 256 = e.basepc % 256 :=
    Nat.mod_mod_of_dvd e.basepc (by norm_num [M16])
  rw [h1, h2]
  omega

theorem skipSpaces_numChars (v : Nat) : skipSpaces (numChars v) = numChars v := by
  obtain ⟨c, cs, hnum⟩ : ∃ c cs, numChars v = c :: cs := by
    cases hn : numChars v with
    | nil => exact absurd hn (numChars_ne_nil v)
    | cons c cs => exact ⟨c, cs, rfl⟩
  have hc : 48 ≤ c ∧ c < 58 := numChars_digits v c (hnum ▸ List.mem_cons_self c cs)
  rw [hnum, skipSpaces_big c cs (by omega)]

theorem emit_flush_mem (e : EmitState) (r : HexRecord) (h : r ∈ (emit_flush e).records) :
    r ∈ e.records ∨ (ckSumOK r ∧ r.rtype = 0) := by
  unfold emit_flush at h
  split_ifs at h
  · exact Or.inl h
  · simp only [List.mem_append, List.mem_singleton] at h
    rcases h with h | rfl
    · exact Or.inl h
    · exact Or.inr (mkRecord_ck e)

/-! ### claim theorems -/

/-- C1 counterexample: the claim says binary operators apply left to
right, so `0 - 0 - 1` would be `(0 - 0) - 1 = 2^32 - 1`.  The evaluator
reduces the operator stack from the top down and yields
`0 - (0 - 1) = 1` instead. -/
theorem c1_left_assoc_counterexample :
    Option.map ExOut.v (exprTop 1 none false 0 initTab (bytesOf "0 - 0 - 1") []) = some 1 ∧
    (appOp 45 0 0).bind (fun x => appOp 45 x 1) = some 4294967295 ∧
    (1 : Nat) ≠ 4294967295 := by decide

/-- C2 counterexample: `X .EQU A` where the address of `A` moves between
pass 0 and pass 1 (a forward `LI` reference grows from 2 to 6 bytes).
`X` is an `.EQU` label (its `EQU` flag bit is set), both passes are
error-free, yet its value is 2 after pass 0 and 6 after pass 1, so it is
not fixed at its first definition. -/
theorem c2_equ_constant_counterexample :
    (passSeq progC2 1).map (fun s => ((find_label s.tbl none (bytesOf "X")).map
      (fun i => ((s.tbl.slots i).value, (s.tbl.slots i).flags &&& LABEL_EQU)), s.errs)) =
      some (some (2, 2), []) ∧
    (passSeq progC2 2).map (fun s => ((find_label s.tbl none (bytesOf "X")).map
      (fun i => ((s.tbl.slots i).value, (s.tbl.slots i).flags &&& LABEL_EQU)), s.errs)) =
      some (some (6, 2), []) ∧
    (2 : Nat) ≠ 6 := by decide

/-- C3 counterexample: pass 0 of ` BRA X` resolves the undefined label
`X` with `allow_undef = true` (the value 0 is used, no diagnostic), yet
the pass ends with the "more work" flag still false and `X` still
absent from the table: the evaluator does not mark the pass non-final. -/
theorem c3_more_flag_counterexample :
    (asmLines 0 false progC3 1 initLSt).map
      (fun st => (st.more, st.errs, find_label st.tbl none (bytesOf "X"))) =
      some (false, [], none) := by decide

/-- C4 counterexample: the assembled image of the two-line program is
`31 14 00 01 21 01 FF FC`; the second byte of the `BNE` is `0x01`
(base word `0x2001` or-ed with `R1 << 8`), not the `0x10` the claim
states. -/
theorem c4_encoding_counterexample :
    (passSeq progC4 3).map (fun s => s.em.records.map (fun r => (r.addr, r.data))) =
      some [(0, [0x31, 0x14, 0x00, 0x01, 0x21, 0x01, 0xFF, 0xFC])] ∧
    [(0x21 : Nat), 0x01, 0xFF, 0xFC] ≠ [0x21, 0x10, 0xFF, 0xFC] := by decide

/-- C4 amended: the program assembles without error in three passes
(insertion pass, stable pass, final emitting pass); the final pass emits
4 A-form bytes `31 14 00 01` for the first line and, for the `b`-to-`B`
rewrite at PC 4 with target 0 and offset (0 - 8)/2 = -4, the 4 bytes
`21 01 FF FC`, all in one record with checksum `0x95`. -/
theorem c4_amended_encoding :
    (passSeq progC4 3).map (fun s => (s.errs, s.another, s.em.records)) =
      some ([], false,
        [⟨8, 0, 0, [0x31, 0x14, 0x00, 0x01, 0x21, 0x01, 0xFF, 0xFC], 0x95⟩]) := by decide

/-- C6 counterexample: a branch whose computed half-word offset is
exactly -32768 is encoded on the final pass with no diagnostic (the
check is `off >= 32768 || off < -32768`), although the claim says
-32768 raises the branch-out-of-range error. -/
theorem c6_branch_range_counterexample :
    Int.tdiv ((-65532 : Int) - (toInt32 0 + 4)) 2 = -32768 ∧
    (encodeK 4 1 true 0 'B' 0x2ff0 ⟨⟨AKind.num, 0, -65532⟩, arg0, arg0⟩).2 = [] := by decide

/-- C1 amended: the seven binary operators have no precedence, and a chain
`a op1 b op2 c` evaluates right to left: the reduction loop pops the most
recent operator first, so the value is `a op1 (b op2 c)` in 32-bit modular
arithmetic, provided no division or modulo by zero occurs under that
grouping. -/
theorem c1_amended_right_assoc (ln : Nat) (ml : Option Nat) (au : Bool) (pc : Nat) (tbl : SymTab)
    (errs : List (Nat × String)) (a b c o1 o2 y z : Nat)
    (ha : a < M32) (hb : b < M32) (hc : c < M32)
    (h1 : o1 ∈ opSet) (h2 : o2 ∈ opSet)
    (hy : appOp o2 b c = some y) (hz : appOp o1 a y = some z) :
    exprTop ln ml au pc tbl (numChars a ++ o1 :: 32 :: (numChars b ++ o2 :: 32 :: numChars c)) errs =
    some ⟨some [], z, tbl, errs⟩ := by
  unfold exprTop exprF
  have hlen : 6 ≤ 2 * (numChars a ++ o1 :: 32 :: (numChars b ++ o2 :: 32 :: numChars c)).length + 2 := by
    have := numChars_len_pos a
    simp
    omega
  obtain ⟨g, hg⟩ := Nat.exists_eq_add_of_le hlen
  rw [hg, Nat.add_comm 6 g]
  rw [exprGo_chain3 g ln ml au pc tbl a b c o1 o2 errs ha hb hc h1 h2]
  simp [exprFin, reduceStack, hy, hz]

/-- C1 amended witness: `10 - 3 - 1` evaluates to 10 - (3 - 1) = 8. -/
theorem c1_amended_witness :
    appOp 45 3 1 = some 2 ∧ appOp 45 10 2 = some 8 ∧
    exprTop 1 none false 0 initTab (numChars 10 ++ 45 :: 32 :: (numChars 3 ++ 45 :: 32 :: numChars 1)) [] =
      some ⟨some [], 8, initTab, []⟩ :=
  ⟨by decide, by decide,
   c1_amended_right_assoc 1 none false 0 initTab [] 10 3 1 45 45 2 8 (by decide) (by decide)
     (by decide) (by decide) (by decide) (by decide) (by decide)⟩

/-- C2 amended: the `.EQU` handler runs on every pass and assigns the
freshly evaluated expression value to the label, so after processing the
line `X .EQU v` the label value equals the value the expression has in
the current pass (here a numeral `v`), whatever the value was before. -/
theorem c2_amended_equ_reassigned (pass : Nat) (out : Bool) (ln : Nat) (st : LSt) (i : Nat) (v : Nat)
    (hv : v < M32) (hpass : pass ≠ 0)
    (hfind : find_label st.tbl none [88] = some i)
    (hflag : (st.tbl.slots i).flags &&& LABEL_EQU ≠ 0) :
    ∃ st2, assembleLine pass out ln st (bytesOf "X .EQU " ++ numChars v) = some st2 ∧
      (st2.tbl.slots i).value = v ∧
      (st2.tbl.slots i).flags = (st.tbl.slots i).flags ||| (LABEL_USED ||| LABEL_EQU) ∧
      st2.errs = st.errs := by
  have hbytes : bytesOf "X .EQU " = [88, 32, 46, 69, 81, 85, 32] := by decide
  rw [hbytes]
  have e0 : (pass = 0) = False := by simp [hpass]
  have ef : ((st.tbl.slots i).flags &&& LABEL_EQU = 0 ∧ (st.tbl.slots i).value ≠ st.pc) = False := by
    simp only [eq_iff_iff, iff_false]
    rintro ⟨h1, -⟩
    exact hflag h1
  simp only [assembleLine, labelPart, List.cons_append]
  simp [collectIdent, isalnum, isalpha, isdigit, toupper, hfind, e0, ef, bodyPart,
        collectAlpha, skipSpaces, skipSpaces_numChars, bytesOf, exprTop_num, hv,
        updSlot, Nat.mod_eq_of_lt hv]

/-- C2 amended witness: an existing `.EQU` label X with value 9 is
re-assigned to 5 by `X .EQU 5` on pass 1. -/
theorem c2_amended_witness :
    find_label stC2.tbl none [88] = some 0 ∧
    (∃ st2, assembleLine 1 false 7 stC2 (bytesOf "X .EQU " ++ numChars 5) = some st2 ∧
      (st2.tbl.slots 0).value = 5 ∧
      (st2.tbl.slots 0).flags = (stC2.tbl.slots 0).flags ||| (LABEL_USED ||| LABEL_EQU) ∧
      st2.errs = stC2.errs) :=
  ⟨by decide,
   c2_amended_equ_reassigned 1 false 7 stC2 0 5 (by decide) (by decide) (by decide) (by decide)⟩

/-- C3 amended: resolving a label reference that is not in the symbol
table yields the operand value 0; when `allow_undef` is false the
"undefined label in expr" diagnostic is raised, and when it is true no
diagnostic is raised and the evaluator changes nothing else (in
particular it does not touch the "more work" flag, which it cannot even
access; see the counterexample for the flag staying false). -/
theorem c3_amended_undef_label (ln : Nat) (ml : Option Nat) (au : Bool) (pc : Nat) (tbl : SymTab)
    (errs : List (Nat × String)) (c : Nat) (nm : List Nat)
    (hc : c < 256) (hca : isalpha c = true)
    (hnm : ∀ x ∈ nm, x = 95 ∨ isalnum x = true)
    (hfind : find_label tbl none (List.map toupper (c :: nm)) = none) :
    exprTop ln ml au pc tbl (c :: nm) errs =
    some ⟨some [], 0, tbl, errs ++ if au then [] else [(ln, "undefined label in expr")]⟩ := by
  obtain ⟨hgt, h40, h36, hdig, h45, h39, h43⟩ := alpha_char_factsA c hc hca
  obtain ⟨h38, h124, h42, h37, h47, h58, h46⟩ := alpha_char_factsB c hc hca
  unfold exprTop exprF
  rw [show 2 * ((c :: nm) : List Nat).length + 2 = (2 * (c :: nm).length) + 1 + 1 from rfl]
  simp only [exprGo]
  rw [skipSpaces_big c nm hgt]
  have e40 : (c = 40) = False := by simp [h40]
  have e36 : (c = 36) = False := by simp [h36]
  have e45 : (c = 45) = False := by simp [h45]
  have e39 : (c = 39) = False := by simp [h39]
  have e43 : (c = 43) = False := by simp [h43]
  have e38 : (c = 38) = False := by simp [h38]
  have e124 : (c = 124) = False := by simp [h124]
  have e42 : (c = 42) = False := by simp [h42]
  have e37 : (c = 37) = False := by simp [h37]
  have e47 : (c = 47) = False := by simp [h47]
  have e58 : (c = 58) = False := by simp [h58]
  have e46 : (c = 46) = False := by simp [h46]
  have hcoll : collectIdent (c :: nm) = ((c :: nm).map toupper, []) :=
    collectIdent_all _ (by
      intro x hx
      rcases List.mem_cons.mp hx with rfl | hx2
      · right; simp [isalnum, hca]
      · exact hnm x hx2)
  simp only [List.map_cons] at hfind
  simp [e40, e36, e45, e39, e43, e38, e124, e42, e37, e47, e58, e46, hdig, hca, hcoll, hfind,
        skipSpaces, exprFin, reduceStack]
  cases au <;> simp

/-- C3 amended witness: the reference `A` against the empty table with
`allow_undef = false` yields 0 and the diagnostic. -/
theorem c3_amended_witness :
    isalpha 65 = true ∧
    exprTop 5 none false 0 initTab [65] [] =
      some ⟨some [], 0, initTab, [(5, "undefined label in expr")]⟩ :=
  ⟨by decide,
   c3_amended_undef_label 5 none false 0 initTab [] 65 [] (by decide) (by decide)
     (by simp) (by decide)⟩

/-- C5: the `LI` encoder tests its cases in order: immediate 0 gives the
two bytes `0x80 | reg, 0xff`; immediate 1 gives `0x00 | reg, 0xf8`; an
immediate in -32768..32767 gives the 4-byte A-form rewritten with base
word 0x30f9 (OR reg, R0, imm, second byte exactly 0xf9) and no
diagnostic; anything else gives 6 bytes: base-word high byte, base-word
low byte or-ed with reg << 4, then the 32-bit immediate big-endian. -/
theorem c5_li_cases (f ln : Nat) (out : Bool) (pc w : Nat) (r v0 r1 : Int) (n : Int) (a2 : Arg) :
    encodeK (f + 2) ln out pc 'I' w ⟨⟨AKind.reg, r, v0⟩, ⟨AKind.num, r1, n⟩, a2⟩ =
    if n = 0 then ([(128 ||| w32 r) % 256, 255], [])
    else if n = 1 then ([(0 ||| w32 r) % 256, 248], [])
    else if -32768 ≤ n ∧ n ≤ 32767 then
      ([(48 ||| w32 r) % 256, 249, sb n 8, sb n 0], [])
    else ([(w >>> 8) % 256, (w ||| w32 (r * 16)) % 256, sb n 24, sb n 16, sb n 8, sb n 0], []) := by
  have eI0 : (('I' : Char) = 'N') = False := by decide
  have eI1 : (('I' : Char) = 'R') = False := by decide
  have eI2 : (('I' : Char) = 'r') = False := by decide
  have eI3 : (('I' : Char) = 'a') = False := by decide
  have eI4 : (('I' : Char) = 'A') = False := by decide
  have eI5 : (('I' : Char) = 'U') = False := by decide
  have eI6 : (('I' : Char) = 'u') = False := by decide
  have eI7 : (('I' : Char) = 'E') = False := by decide
  have eI8 : (('I' : Char) = 'B') = False := by decide
  have eI9 : (('I' : Char) = 'b') = False := by decide
  have eI10 : (('I' : Char) = '!') = False := by decide
  have eI11 : (('I' : Char) = 'M') = False := by decide
  have eI12 : (('I' : Char) = 'm') = False := by decide
  have eI13 : (('I' : Char) = 'J') = False := by decide
  have eI14 : (('I' : Char) = 'L') = False := by decide
  have eI15 : (('I' : Char) = 'l') = False := by decide
  have eI16 : (('I' : Char) = 'I') = True := by decide
  have eA0 : (('A' : Char) = 'N') = False := by decide
  have eA1 : (('A' : Char) = 'R') = False := by decide
  have eA2 : (('A' : Char) = 'r') = False := by decide
  have eA3 : (('A' : Char) = 'a') = False := by decide
  have eA4 : (('A' : Char) = 'A') = True := by decide
  simp only [encodeK, eI0, eI1, eI2, eI3, eI4, eI5, eI6, eI7, eI8, eI9, eI10, eI11, eI12, eI13, eI14, eI15, eI16, eA0, eA1, eA2, eA3, eA4, ite_false, ite_true]
  split_ifs with h1 h2 h3 h4
  · rfl
  · rfl
  · exfalso
    rcases h4 with ⟨-, hx⟩
    omega
  · norm_num [w32, Nat.shiftRight_eq_div_pow]
  · rfl

/-- C6 amended: a branch emits the base word followed by the big-endian
16-bit offset, and the "branch out of range" diagnostic is absent exactly
when the pass is not final or the offset lies in -32768..32767; so
-32768 is accepted and only offsets at or beyond +32768 and -32769 are
rejected, and never on non-final passes. -/
theorem c6_amended_branch_range (f ln : Nat) (out : Bool) (pc w : Nat) (va : VArr) :
    (encodeK (f + 1) ln out pc 'B' w va).1 =
      [(w >>> 8) % 256, w % 256,
       sb (Int.tdiv (va.a0.val - (toInt32 pc + 4)) 2) 8,
       sb (Int.tdiv (va.a0.val - (toInt32 pc + 4)) 2) 0] ∧
    ((encodeK (f + 1) ln out pc 'B' w va).2 = [] ↔
      (out = false ∨ (-32768 ≤ Int.tdiv (va.a0.val - (toInt32 pc + 4)) 2 ∧
                      Int.tdiv (va.a0.val - (toInt32 pc + 4)) 2 ≤ 32767))) := by
  have eB0 : (('B' : Char) = 'N') = False := by decide
  have eB1 : (('B' : Char) = 'R') = False := by decide
  have eB2 : (('B' : Char) = 'r') = False := by decide
  have eB3 : (('B' : Char) = 'a') = False := by decide
  have eB4 : (('B' : Char) = 'A') = False := by decide
  have eB5 : (('B' : Char) = 'U') = False := by decide
  have eB6 : (('B' : Char) = 'u') = False := by decide
  have eB7 : (('B' : Char) = 'E') = False := by decide
  have eB8 : (('B' : Char) = 'B') = True := by decide
  simp only [encodeK, eB0, eB1, eB2, eB3, eB4, eB5, eB6, eB7, eB8, ite_false, ite_true]
  constructor
  · trivial
  · split_ifs with h
    · constructor
      · intro hx
        exact absurd hx (by simp)
      · intro hx
        rcases hx with hx | hx
        · exact absurd h (by simp [hx])
        · exact absurd h (by omega)
    · constructor
      · intro _
        by_cases ho : out = true
        · right
          simp [ho] at h
          constructor <;> omega
        · left
          simpa using ho
      · intro _
        rfl

/-- C7: every record that `emit_flush` appends to the output satisfies
the Intel HEX checksum property: the low byte of byte count + both
address bytes + record type + data bytes + checksum is 0. -/
theorem c7_record_checksum (e : EmitState) (r : HexRecord)
    (h : r ∈ (emit_flush e).records) : r ∈ e.records ∨ (ckSumOK r ∧ r.rtype = 0) :=
  emit_flush_mem e r h

/-- C7 witness: the record flushed from a concrete buffer state passes
the checksum test. -/
theorem c7_record_checksum_witness :
    ckSumOK (mkRecord ⟨[1, 2], 4660, 9, []⟩) ∧ (mkRecord ⟨[1, 2], 4660, 9, []⟩).rtype = 0 :=
  (c7_record_checksum ⟨[1, 2], 4660, 9, []⟩ (mkRecord ⟨[1, 2], 4660, 9, []⟩)
    (by decide)).resolve_left (by decide)

/-- C8: one `.WORD` expression emits the low 16 bits of the unsigned
32-bit value big-endian in every case, and raises ".WORD overflow"
exactly when the pass is final and the value is strictly greater than
65536 (so 65536 itself is accepted, and small negative values
reinterpreted as large unsigned values are rejected). -/
theorem c8_word_range (f ln : Nat) (out : Bool) (ml : Option Nat) (pc : Nat) (tbl : SymTab)
    (errs : List (Nat × String)) (v : Nat) (hv : v < M32) :
    wordDir (f + 1) ln out ml pc tbl errs [] (numChars v) =
    LoopRes.done [(v >>> 8) % 256, v % 256] [] tbl
      (if out ∧ 65536 < v then errs ++ [(ln, ".WORD overflow")] else errs) := by
  simp only [wordDir]
  rw [exprTop_num ln ml (!out) pc tbl errs v hv]
  simp

/-- C8 witness: `.WORD 65536` on the final pass emits `00 00` with no
diagnostic. -/
theorem c8_word_range_witness :
    (65536 : Nat) < M32 ∧
    wordDir 5 1 true none 0 initTab [] [] (numChars 65536) =
      LoopRes.done [0, 0] [] initTab [] :=
  ⟨by decide, c8_word_range 4 1 true none 0 initTab [] 65536 (by decide)⟩

/-- C9: `emit` receives its address as a 16-bit quantity: under the
buffer invariant `basepc + pending = outpc`, the byte emitted for
program counter `pc + i` is buffered at address `(pc + i) mod 2^16`, the
invariant is preserved, and every record ever produced has record type 0
(no extended-address records exist). -/
theorem c9_emit_addr16 (em : EmitState) (pc i b : Nat)
    (hinv : em.basepc + em.line.length = em.outpc) :
    (emit em (((pc + i) % M32) % M16) b).basepc +
      ((emit em (((pc + i) % M32) % M16) b).line.length - 1) = (pc + i) % M16 ∧
    (emit em (((pc + i) % M32) % M16) b).basepc +
      (emit em (((pc + i) % M32) % M16) b).line.length =
      (emit em (((pc + i) % M32) % M16) b).outpc ∧
    (∀ r ∈ (emit em (((pc + i) % M32) % M16) b).records, r ∈ em.records ∨ r.rtype = 0) := by
  have hmm : ((pc + i) % M32) % M16 = (pc + i) % M16 :=
    Nat.mod_mod_of_dvd _ (by norm_num [M16, M32])
  unfold emit
  split_ifs with h
  · refine ⟨by simp [hmm], by simp, ?_⟩
    intro r hr
    simp only [] at hr
    rcases emit_flush_mem em r hr with h1 | h2
    · exact Or.inl h1
    · exact Or.inr h2.2
  · refine ⟨by simp [hmm]; omega, by simp; omega, ?_⟩
    intro r hr
    exact Or.inl hr

/-- C9 witness: emitting at PC 70002 buffers the byte at
70002 mod 65536 = 4466. -/
theorem c9_emit_addr16_witness :
    initEmit.basepc + initEmit.line.length = initEmit.outpc ∧
    (emit initEmit (((70000 + 2) % M32) % M16) 300).basepc +
      ((emit initEmit (((70000 + 2) % M32) % M16) 300).line.length - 1) = (70000 + 2) % M16 :=
  ⟨by decide, (c9_emit_addr16 initEmit 70000 2 300 (by decide)).1⟩

/-- C10: the evaluator holds at most 8 operand values and 8 pending
operators per nesting level: a chain of at most 8 operands (7 binary
operators) evaluates successfully (given its reduction involves no
division by zero), while a chain of 9 or more operands is rejected with
the "expr syntax" error and a NULL result pointer. -/
theorem c10_expr_capacity (ln : Nat) (ml : Option Nat) (au : Bool) (pc : Nat) (tbl : SymTab)
    (errs : List (Nat × String)) :
    (∀ (vs os s : List Nat),
       vs.length = os.length + 1 → vs.length ≤ 8 →
       (∀ v ∈ vs, v < M32) → (∀ o ∈ os, o ∈ opSet) →
       reduceStack vs.reverse os.reverse = some s →
       exprTop ln ml au pc tbl (chainN vs os) errs = some ⟨some [], s.headD 0, tbl, errs⟩) ∧
    (∀ (vs os : List Nat),
       vs.length = os.length + 1 → 9 ≤ vs.length →
       (∀ v ∈ vs, v < M32) → (∀ o ∈ os, o ∈ opSet) →
       ∃ g, exprTop ln ml au pc tbl (chainN vs os) errs =
         some ⟨none, g, tbl, errs ++ [(ln, "expr syntax")]⟩) := by
  constructor
  · intro vs os s h h8 hv ho hred
    unfold exprTop exprF
    have hfl : 2 * vs.length ≤ 2 * (chainN vs os).length + 2 := by
      have := chainN_len vs os h
      omega
    obtain ⟨g, hg⟩ := Nat.exists_eq_add_of_le hfl
    rw [hg, Nat.add_comm]
    rw [exprGo_chainN ln ml au pc vs os [] [] g tbl errs h hv ho rfl (by simpa using h8)]
    simp only [exprFin]
    rw [if_neg (by simp [h])]
    simp [hred]
  · intro vs os h h9 hv ho
    unfold exprTop exprF
    have hfl : 2 * vs.length ≤ 2 * (chainN vs os).length + 2 := by
      have := chainN_len vs os h
      omega
    obtain ⟨g, hg⟩ := Nat.exists_eq_add_of_le hfl
    rw [hg, Nat.add_comm]
    obtain ⟨rest, s1, s2, heq, h1, h2⟩ :=
      exprGo_chainN_break ln ml au pc vs os [] [] g tbl errs h hv ho rfl (by simp) (by simp; omega)
    rw [heq]
    refine ⟨s1.getLastD 0, ?_⟩
    simp only [exprFin]
    rw [if_pos (by omega)]

/-- C10 witness: 8 summands evaluate to 36; 9 operands fail with the
"expr syntax" error and a NULL pointer. -/
theorem c10_expr_capacity_witness :
    exprTop 1 none false 0 initTab
        (chainN [1, 2, 3, 4, 5, 6, 7, 8] [43, 43, 43, 43, 43, 43, 43]) [] =
      some ⟨some [], List.headD [36] 0, initTab, []⟩ ∧
    (∃ g, exprTop 1 none false 0 initTab
        (chainN [1, 1, 1, 1, 1, 1, 1, 1, 1] [43, 43, 43, 43, 43, 43, 43, 43]) [] =
      some ⟨none, g, initTab, [(1, "expr syntax")]⟩) :=
  ⟨(c10_expr_capacity 1 none false 0 initTab []).1 [1, 2, 3, 4, 5, 6, 7, 8]
      [43, 43, 43, 43, 43, 43, 43] [36] (by decide) (by decide) (by decide) (by decide) (by decide),
   (c10_expr_capacity 1 none false 0 initTab []).2 [1, 1, 1, 1, 1, 1, 1, 1, 1]
      [43, 43, 43, 43, 43, 43, 43, 43] (by decide) (by decide) (by decide) (by decide)⟩

end Eonasm
